import Mathlib

/-!
# rx5808-pro-diversity: receiver core (`receiver.cpp`)

A shallow embedding of `namespace Receiver` of `receiver.cpp`, in the dual-path
build (`USE_DIVERSITY` defined), for the AVR target the sketch is written for
(`int` is 16 bits wide, `long` 32 bits, `float` is IEEE binary32).

* the module-scope variables and the function-static `diversityCheckTick`
  become the fields of `State`; the hardware the code touches (the `millis()`
  counter, the two LED pins, the synthesizer register) are fields too;
* `delay(d)` advances the `millis()` counter by `d`;
* values returned by `analogRead` and by `rssiLogTimer.hasTicked()` are
  arguments of `updateRssi`; the state of the timers (`timer.h`) is not part of
  the model;
* operations with no defined result in C++ (division by zero, a `float` to
  `int` conversion of a non-finite value, signed overflow, reaching the end of a
  function that must return a value) return `none`, and so does a loop that
  never ends.

Machine integers are `Nat` / `Int` with explicit reductions modulo `2^w`.
-/

namespace Receiver

/-! ## Constants of `settings.h` / `receiver.h` -/

/-- Modelled from the spec: `receiver.h` is not among the sources; the identity
of the primary path (PRIMARY), a `uint8_t` constant. -/
def RECEIVER_A : Nat := 0

/-- Modelled from the spec: `receiver.h` is not among the sources; the identity
of the secondary path (SECONDARY), distinct from `RECEIVER_A`. -/
def RECEIVER_B : Nat := 1

/-- Modelled from the spec: `settings.h` is not among the sources; the AUTO
member of the closed enumeration of diversity modes. -/
def DIVERSITY_AUTO : Nat := 0

/-- Modelled from the spec: `settings.h` is not among the sources; the
FORCE_PRIMARY member of the closed enumeration of diversity modes. -/
def DIVERSITY_FORCE_A : Nat := 1

/-- Modelled from the spec: `settings.h` is not among the sources; the
FORCE_SECONDARY member of the closed enumeration of diversity modes. -/
def DIVERSITY_FORCE_B : Nat := 2

/-- Build-time tunables of `settings.h` / `receiver.h` and the channel table of
`channels.h`, none of which is among the sources: they are parameters of the
model. -/
structure Config where
  /-- Settling time in milliseconds after a channel switch. -/
  MIN_TUNE_TIME : Nat
  /-- Relative difference, in percent, from which the counter is adjusted. -/
  DIVERSITY_CUTOVER : Nat
  /-- Upper bound of the hysteresis counter. -/
  DIVERSITY_MAX_CHECKS : Nat
  /-- Capacity of each history buffer, from 1 to 256 (the arrays are indexed by a
  `uint8_t`). -/
  RECEIVER_LAST_DATA_SIZE : Nat
  /-- Lookup `Channels::getSynthRegisterB`. -/
  getSynthRegisterB : Nat → Nat

/-- The fields of `EepromSettings` that `receiver.cpp` reads or writes. -/
structure EepromSettings where
  rssiAMin : Nat
  rssiAMax : Nat
  rssiBMin : Nat
  rssiBMax : Nat
  diversityMode : Nat
deriving DecidableEq, Repr

/-- The variables of `namespace Receiver`, the static local of
`switchDiversity`, the settings, and the hardware state the code acts on. -/
structure State where
  activeReceiver : Nat
  activeChannel : Nat
  rssiA : Nat
  rssiARaw : Nat
  rssiALast : List Nat
  rssiB : Nat
  rssiBRaw : Nat
  rssiBLast : List Nat
  lastChannelSwitchTime : Nat
  /-- The static local `diversityCheckTick` of `switchDiversity`. -/
  diversityCheckTick : Nat
  eepromSettings : EepromSettings
  /-- Current value of the 32-bit `millis()` counter. -/
  millis : Nat
  /-- Level last written to `PIN_LED_A`. -/
  ledA : Bool
  /-- Level last written to `PIN_LED_B`. -/
  ledB : Bool
  /-- Value last passed to `ReceiverSpi::setSynthRegisterB`. -/
  synthRegisterB : Nat
deriving DecidableEq, Repr

/-- The state at start-up: the initialisers of `receiver.cpp`, with the
settings, clock and pin levels as found. -/
def initial (cfg : Config) (e : EepromSettings) (now : Nat) : State :=
  { activeReceiver := RECEIVER_A
    activeChannel := 0
    rssiA := 0
    rssiARaw := 0
    rssiALast := List.replicate cfg.RECEIVER_LAST_DATA_SIZE 0
    rssiB := 0
    rssiBRaw := 0
    rssiBLast := List.replicate cfg.RECEIVER_LAST_DATA_SIZE 0
    lastChannelSwitchTime := 0
    diversityCheckTick := 0
    eepromSettings := e
    millis := now % 2 ^ 32
    ledA := false
    ledB := false
    synthRegisterB := 0 }

/-! ## Channel tuner -/

/-- Arduino `delay(d)`: the millisecond counter moves on by `d`. -/
def delay (d : Nat) (s : State) : State :=
  { s with millis := (s.millis + d) % 2 ^ 32 }

/-- `setChannel(channel)`, the argument being a `uint8_t`. -/
def setChannel (cfg : Config) (channel : Nat) (s : State) : State :=
  { s with
    synthRegisterB := cfg.getSynthRegisterB (channel % 2 ^ 8)
    lastChannelSwitchTime := s.millis
    activeChannel := channel % 2 ^ 8 }

/-- The `uint32_t` difference `millis() - lastChannelSwitchTime`. -/
def elapsed32 (lastSwitch now : Nat) : Nat :=
  (now + 2 ^ 32 - lastSwitch % 2 ^ 32) % 2 ^ 32

/-- The local `uint16_t timeSinceChannelSwitch` of `waitForStableRssi`: the
32-bit difference converted to 16 bits. -/
def timeSinceChannelSwitch (lastSwitch now : Nat) : Nat :=
  elapsed32 lastSwitch now % 2 ^ 16

/-- The argument `waitForStableRssi` passes to `delay`, or 0 when it does not
call it. The comparison and the subtraction are exact: the left operand is
below the right one whenever the subtraction is evaluated. -/
def stableRssiDelay (minTuneTime lastSwitch now : Nat) : Nat :=
  if timeSinceChannelSwitch lastSwitch now < minTuneTime then
    minTuneTime - timeSinceChannelSwitch lastSwitch now
  else 0

/-- `waitForStableRssi()`. -/
def waitForStableRssi (cfg : Config) (s : State) : State :=
  if timeSinceChannelSwitch s.lastChannelSwitchTime s.millis < cfg.MIN_TUNE_TIME then
    delay (cfg.MIN_TUNE_TIME - timeSinceChannelSwitch s.lastChannelSwitchTime s.millis) s
  else s

/-! ## Signal sampler -/

/-- Membership in the range of the 32-bit `long`. -/
def inLong (z : Int) : Prop := -2 ^ 31 ≤ z ∧ z < 2 ^ 31

instance (z : Int) : Decidable (inLong z) := by
  unfold inLong
  infer_instance

/-- Arduino core `map` (`WMath.cpp`, not part of this repository), which
`updateRssi` calls: `(x - in_min) * (out_max - out_min) / (in_max - in_min) +
out_min` in `long` arithmetic, the division truncating toward zero. The result
is `none` where C leaves it undefined: a zero divisor or a signed overflow. -/
def map (x in_min in_max out_min out_max : Int) : Option Int :=
  if inLong (x - in_min) ∧ inLong (out_max - out_min) ∧
      inLong ((x - in_min) * (out_max - out_min)) ∧ inLong (in_max - in_min) ∧
      in_max - in_min ≠ 0 ∧
      inLong (((x - in_min) * (out_max - out_min)).tdiv (in_max - in_min)) ∧
      inLong (((x - in_min) * (out_max - out_min)).tdiv (in_max - in_min) + out_min) then
    some (((x - in_min) * (out_max - out_min)).tdiv (in_max - in_min) + out_min)
  else none

/-- Arduino macro `constrain(amt, low, high)`:
`((amt) < (low) ? (low) : ((amt) > (high) ? (high) : (amt)))`. -/
def constrain (amt low high : Int) : Int :=
  if amt < low then low else if amt > high then high else amt

/-- Conversion of a `long` to `uint8_t`. -/
def toUint8 (z : Int) : Nat := (z % 2 ^ 8).toNat

/-- The expression `constrain(map(raw, min, max, 0, 100), 0, 100)` assigned to
a `uint8_t` score in `updateRssi`; its three arguments are `uint16_t` values. -/
def normalise (raw calibrationMin calibrationMax : Nat) : Option Nat :=
  (map raw calibrationMin calibrationMax 0 100).map fun v => toUint8 (constrain v 0 100)

/-- The loop `for (uint8_t i = 0; i < size - 1; i++) last[i] = last[i + 1];`
of `updateRssi` on one history array, from the counter value `i`. The counter
is 8 bits wide; `fuel` bounds the number of tests of the loop condition and the
result is `none` when they do not suffice. -/
def shiftLoop (size : Nat) : Nat → Nat → List Nat → Option (List Nat)
  | 0, _, _ => none
  | fuel + 1, i, last =>
    if i < size - 1 then
      shiftLoop size fuel ((i + 1) % 2 ^ 8) (last.set i (last.getD (i + 1) 0))
    else some last

/-- The loop of `updateRssi` over a history array followed by the store of the
new score in its last cell, `last[size - 1] = score`. The array is declared
with `size` cells and an initialiser, so `size` is at least 1. A loop that has
not ended after 256 rounds has its 8-bit counter back at 0 with its condition
still true and never ends, so `2^8 + 1` tests of the condition decide. -/
def shiftHistory (size : Nat) (last : List Nat) (score : Nat) : Option (List Nat) :=
  (shiftLoop size (2 ^ 8 + 1) 0 last).map fun l => l.set (size - 1) score

/-- Lines 68 to 85 of `updateRssi()`, in the dual-path build: the reads and the
primary score. `readA` and `readB` are the values the retained `analogRead`
calls return. -/
def scoreRssiA (readA readB : Nat) (s : State) : Option State :=
  let s2 := { s with rssiARaw := readA % 2 ^ 16, rssiBRaw := readB % 2 ^ 16 }
  (normalise s2.rssiARaw s2.eepromSettings.rssiAMin s2.eepromSettings.rssiAMax).map
    fun a => { s2 with rssiA := a }

/-- Lines 86 to 98 of `updateRssi()`: the secondary score, computed from
`rssiARaw` as in the source. -/
def scoreRssiB (s : State) : Option State :=
  (normalise s.rssiARaw s.eepromSettings.rssiBMin s.eepromSettings.rssiBMax).map
    fun b => { s with rssiB := b }

/-- Lines 68 to 98 of `updateRssi()`: the reads and the two scores. -/
def readRssi (readA readB : Nat) (s : State) : Option State :=
  (scoreRssiA readA readB s).bind scoreRssiB

/-- Lines 100 to 114 of `updateRssi()`: when `rssiLogTimer.hasTicked()` returns
`ticked = true`, both histories are shifted and take the new scores. -/
def logRssi (cfg : Config) (ticked : Bool) (s : State) : Option State :=
  if ticked then
    match shiftHistory cfg.RECEIVER_LAST_DATA_SIZE s.rssiALast s.rssiA,
        shiftHistory cfg.RECEIVER_LAST_DATA_SIZE s.rssiBLast s.rssiB with
    | some lastA, some lastB => some { s with rssiALast := lastA, rssiBLast := lastB }
    | _, _ => none
  else some s

/-- The statements of `updateRssi()` that follow its call of
`waitForStableRssi`: the state in which control reaches the closing brace of
the function. -/
def sampleRssiBody (cfg : Config) (readA readB : Nat) (ticked : Bool) (s : State) :
    Option State :=
  (readRssi readA readB s).bind (logRssi cfg ticked)

/-- What follows the call of `waitForStableRssi` in `updateRssi()`: the
statements of the body, then the end of the function. `updateRssi` is declared
to return a `uint16_t` and has no return statement, so control reaching its
closing brace has no defined result. -/
def sampleRssi (cfg : Config) (readA readB : Nat) (ticked : Bool) (s : State) :
    Option State :=
  match sampleRssiBody cfg readA readB ticked s with
  | some _ => none
  | none => none

/-- The statements of `updateRssi()`, the settling wait included: the state in
which control reaches the closing brace of the function. -/
def updateRssiBody (cfg : Config) (readA readB : Nat) (ticked : Bool) (s : State) :
    Option State :=
  sampleRssiBody cfg readA readB ticked (waitForStableRssi cfg s)

/-- `updateRssi()`: the settling wait, then the reads and what follows them, up
to the end of the function, which has no return statement. -/
def updateRssi (cfg : Config) (readA readB : Nat) (ticked : Bool) (s : State) :
    Option State :=
  sampleRssi cfg readA readB ticked (waitForStableRssi cfg s)

/-! ## Diversity arbitrator -/

/-- `setActiveReceiver(receiver)` in the dual-path build. -/
def setActiveReceiver (receiver : Nat) (s : State) : State :=
  { s with
    ledA := decide (receiver = RECEIVER_A)
    ledB := decide (receiver = RECEIVER_B)
    activeReceiver := receiver }

/-- Number of binary digits of `n`, with `fuel` bounding the recursion. -/
def bitLength : Nat → Nat → Nat
  | 0, _ => 0
  | fuel + 1, n => if n = 0 then 0 else bitLength fuel (n / 2) + 1

/-- The fraction `n / (d * 2 ^ e)` as a numerator and a denominator. -/
def scaleBy (n d : Nat) (e : Int) : Nat × Nat :=
  if 0 ≤ e then (n, d * 2 ^ e.toNat) else (n * 2 ^ (-e).toNat, d)

/-- The integer nearest to `n / d`, a tie going to the even neighbour. -/
def roundHalfEven (n d : Nat) : Nat :=
  if 2 * (n % d) < d then n / d
  else if d < 2 * (n % d) then n / d + 1
  else if (n / d) % 2 = 0 then n / d else n / d + 1

/-- The magnitude of the binary32 value nearest to `n / d` (round to nearest,
ties to even), as a pair `(m, e)` standing for `m * 2 ^ e` with a 24-bit
significand `m`. Exponent limits are not modelled: the operands met here are
quotients and products of 8-bit integers, far inside the normal range. -/
def f32Round (n d : Nat) : Nat × Int :=
  if n = 0 then (0, 0)
  else
    let e0 : Int := (bitLength n n : Int) - (bitLength d d : Int) - 24
    let e : Int :=
      if 2 ^ 24 ≤ (scaleBy n d e0).1 / (scaleBy n d e0).2 then e0 + 1 else e0
    (roundHalfEven (scaleBy n d e).1 (scaleBy n d e).2, e)

/-- The binary32 product of two magnitudes. -/
def f32Mul (v w : Nat × Int) : Nat × Int :=
  f32Round (scaleBy (v.1 * w.1) 1 (-(v.2 + w.2))).1 (scaleBy (v.1 * w.1) 1 (-(v.2 + w.2))).2

/-- The integral part of a magnitude: the `float` to `int` conversion. -/
def f32Trunc (v : Nat × Int) : Nat :=
  (scaleBy v.1 1 (-v.2)).1 / (scaleBy v.1 1 (-v.2)).2

/-- The local `uint8_t rssiDiff` of `switchDiversity`:
`(int) abs(((rssiA - rssiB) / (float) rssiB) * 100.0f)` converted to 8 bits.
Rounding to nearest is symmetric about zero, so the magnitude is computed from
`|rssiA - rssiB|`. With `rssiB == 0` the quotient is an infinity or a NaN and
its conversion to `int` is undefined, as is the conversion of a value beyond
the 16-bit `int`. -/
def rssiDiff (rssiA rssiB : Nat) : Option Nat :=
  if rssiB = 0 then none
  else
    let quotient := f32Round (Int.natAbs ((rssiA : Int) - rssiB)) rssiB
    let percent := f32Trunc (f32Mul quotient (f32Round 100 1))
    if percent < 2 ^ 15 then some (percent % 2 ^ 8) else none

/-- `switchDiversity()`. -/
def switchDiversity (cfg : Config) (s : State) : Option State :=
  if s.eepromSettings.diversityMode = DIVERSITY_AUTO then
    match rssiDiff s.rssiA s.rssiB with
    | none => none
    | some diff =>
      if cfg.DIVERSITY_CUTOVER ≤ diff then
        let tick1 :=
          if s.rssiB < s.rssiA ∧ 0 < s.diversityCheckTick then s.diversityCheckTick - 1
          else s.diversityCheckTick
        let tick2 :=
          if s.rssiA < s.rssiB ∧ tick1 < cfg.DIVERSITY_MAX_CHECKS then (tick1 + 1) % 2 ^ 8
          else tick1
        let bestReceiver :=
          if tick2 = 0 ∨ cfg.DIVERSITY_MAX_CHECKS ≤ tick2 then
            (if tick2 = 0 then RECEIVER_A else RECEIVER_B)
          else s.activeReceiver
        some (setActiveReceiver bestReceiver { s with diversityCheckTick := tick2 })
      else some (setActiveReceiver s.activeReceiver s)
  else if s.eepromSettings.diversityMode = DIVERSITY_FORCE_A then
    some (setActiveReceiver RECEIVER_A s)
  else if s.eepromSettings.diversityMode = DIVERSITY_FORCE_B then
    some (setActiveReceiver RECEIVER_B s)
  else some (setActiveReceiver s.activeReceiver s)

/-- `setDiversityMode(mode)`, the argument being a `uint8_t`. -/
def setDiversityMode (cfg : Config) (mode : Nat) (s : State) : Option State :=
  switchDiversity cfg
    { s with eepromSettings := { s.eepromSettings with diversityMode := mode % 2 ^ 8 } }

/-- `update()` in the dual-path build without serial output: `updateRssi()`,
then `switchDiversity()`. The call of `updateRssi()` has no defined result, so
neither has `update()`. -/
def update (cfg : Config) (readA readB : Nat) (ticked : Bool) (s : State) : Option State :=
  (updateRssi cfg readA readB ticked s).bind (switchDiversity cfg)

/-! ## Runs of calls -/

/-- One step of a run of the arbitrator: the score variables take new values
(as `updateRssi` leaves them between two arbitrations; any `uint8_t` pair), or
one of the two entry points that arbitrate is called. -/
inductive Call where
  | setScores (rssiA rssiB : Nat)
  | switchDiversity
  | setDiversityMode (mode : Nat)
deriving DecidableEq, Repr

/-- The effect of one step. -/
def Call.apply (cfg : Config) : Call → State → Option State
  | Call.setScores a b, s => some { s with rssiA := a % 2 ^ 8, rssiB := b % 2 ^ 8 }
  | Call.switchDiversity, s => Receiver.switchDiversity cfg s
  | Call.setDiversityMode mode, s => Receiver.setDiversityMode cfg mode s

/-- The effect of a sequence of steps, `none` once a step has no defined
result. -/
def run (cfg : Config) : List Call → State → Option State
  | [], s => some s
  | c :: cs, s => (c.apply cfg s).bind (run cfg cs)

/-- One AUTO-mode cycle seen from the arbitrator: the scores of the cycle are
in place and `switchDiversity` runs. -/
def autoCycle (cfg : Config) (scores : Nat × Nat) (s : State) : Option State :=
  run cfg [Call.setScores scores.1 scores.2, Call.switchDiversity] s

/-- A sequence of AUTO-mode cycles, one per pair of scores. -/
def autoCycles (cfg : Config) : List (Nat × Nat) → State → Option State
  | [], s => some s
  | p :: ps, s => (autoCycle cfg p s).bind (autoCycles cfg ps)

/-! ## Concrete configurations and states used to evaluate the code -/

/-- The configuration of the scenarios of the specification: cut-over at 20 %,
4 checks, a settling time of 25 ms, histories of 4 entries. -/
def scenarioConfig : Config :=
  { MIN_TUNE_TIME := 25
    DIVERSITY_CUTOVER := 20
    DIVERSITY_MAX_CHECKS := 4
    RECEIVER_LAST_DATA_SIZE := 4
    getSynthRegisterB := fun channel => channel }

/-- Settings with both paths calibrated to raw readings from 100 to 300. -/
def scenarioSettings (mode : Nat) : EepromSettings :=
  { rssiAMin := 100, rssiAMax := 300, rssiBMin := 100, rssiBMax := 300, diversityMode := mode }

/-- The start-up state of the scenario configuration in AUTO mode, one second
after power-up. -/
def scenarioState : State :=
  initial scenarioConfig (scenarioSettings DIVERSITY_AUTO) 1000

/-- The scenario configuration with histories of 257 entries. -/
def wideHistoryConfig : Config :=
  { scenarioConfig with RECEIVER_LAST_DATA_SIZE := 257 }

/-! ## Relative difference, exact and computed -/

/-- The comparison `|p - s| / s * 100 ≥ threshold` of the specification for a
secondary score `s > 0`, in exact arithmetic: `threshold * s ≤ |p - s| * 100`. -/
def relDiffAtLeast (threshold p s : Nat) : Prop :=
  threshold * s ≤ Int.natAbs ((p : Int) - s) * 100

instance (threshold p s : Nat) : Decidable (relDiffAtLeast threshold p s) := by
  unfold relDiffAtLeast
  infer_instance

/-- The comparison `rssiDiff >= threshold` that `switchDiversity` makes, on the
percentage it has computed for the scores `p` and `s`. -/
def computedDiffAtLeast (threshold p s : Nat) : Prop :=
  ∃ diff, rssiDiff p s = some diff ∧ threshold ≤ diff

/-- The test that the cycle with scores `q` favours path `receiver`: that path
scores higher than the other one and the exact relative difference reaches
`DIVERSITY_CUTOVER`. -/
def favours (cfg : Config) (receiver : Nat) (q : Nat × Nat) : Bool :=
  (if receiver = RECEIVER_B then decide (q.1 % 2 ^ 8 < q.2 % 2 ^ 8)
    else decide (q.2 % 2 ^ 8 < q.1 % 2 ^ 8)) &&
  decide (relDiffAtLeast cfg.DIVERSITY_CUTOVER (q.1 % 2 ^ 8) (q.2 % 2 ^ 8))

/-! ## Runs of the entry points -/

/-- One step of a run of the receiver: a call of one of its entry points, or
time passing between two calls. -/
inductive Action where
  | update (readA readB : Nat) (ticked : Bool)
  | setChannel (channel : Nat)
  | setDiversityMode (mode : Nat)
  | switchDiversity
  | elapse (ms : Nat)
deriving DecidableEq, Repr

/-- The effect of one step. -/
def Action.apply (cfg : Config) : Action → State → Option State
  | Action.update readA readB ticked, s => Receiver.update cfg readA readB ticked s
  | Action.setChannel channel, s => some (Receiver.setChannel cfg channel s)
  | Action.setDiversityMode mode, s => Receiver.setDiversityMode cfg mode s
  | Action.switchDiversity, s => Receiver.switchDiversity cfg s
  | Action.elapse ms, s => some (delay ms s)

/-- Before the settling time has passed, the wait is for exactly what is left
of it. -/
theorem stableRssiDelay_of_elapsed_lt (minTuneTime lastSwitch now : Nat)
    (hM : minTuneTime ≤ 2 ^ 16) (h : elapsed32 lastSwitch now < minTuneTime) :
    stableRssiDelay minTuneTime lastSwitch now = minTuneTime - elapsed32 lastSwitch now := by
  unfold stableRssiDelay timeSinceChannelSwitch
  split_ifs with h1 <;> omega

/-- No wait is added once the 16-bit copy of the elapsed time has reached the
settling time. -/
theorem stableRssiDelay_of_le (minTuneTime lastSwitch now : Nat)
    (h : minTuneTime ≤ timeSinceChannelSwitch lastSwitch now) :
    stableRssiDelay minTuneTime lastSwitch now = 0 := by
  unfold stableRssiDelay
  rw [if_neg (by omega)]

/-- C2. Evaluation at the input where the claim fails: 65536 ms after the last
channel switch the 32-bit elapsed time is at least `MIN_TUNE_TIME`, yet its
16-bit copy `timeSinceChannelSwitch` is 0 and `waitForStableRssi` delays for
the whole of `MIN_TUNE_TIME`. -/
theorem waitForStableRssi_delays_after_16bit_wrap (cfg : Config) (s : State)
    (hT0 : s.lastChannelSwitchTime = 0) (hT : s.millis = 65536)
    (h0 : 0 < cfg.MIN_TUNE_TIME) (hM : cfg.MIN_TUNE_TIME ≤ 65536) :
    cfg.MIN_TUNE_TIME ≤ elapsed32 s.lastChannelSwitchTime s.millis ∧
      timeSinceChannelSwitch s.lastChannelSwitchTime s.millis = 0 ∧
      (waitForStableRssi cfg s).millis = s.millis + cfg.MIN_TUNE_TIME := by
  have ht : timeSinceChannelSwitch s.lastChannelSwitchTime s.millis = 0 := by
    rw [hT0, hT]
    decide
  have he : elapsed32 s.lastChannelSwitchTime s.millis = 65536 := by
    rw [hT0, hT]
    decide
  refine ⟨by omega, ht, ?_⟩
  unfold waitForStableRssi
  rw [ht, if_pos h0]
  simp only [delay, hT]
  omega

theorem waitForStableRssi_delays_after_16bit_wrap_witness :
    scenarioConfig.MIN_TUNE_TIME
        ≤ elapsed32 0 65536 ∧
      (waitForStableRssi scenarioConfig
        { scenarioState with lastChannelSwitchTime := 0, millis := 65536 }).millis
        = 65536 + 25 :=
  ⟨(waitForStableRssi_delays_after_16bit_wrap scenarioConfig
      { scenarioState with lastChannelSwitchTime := 0, millis := 65536 }
      rfl rfl (by decide) (by decide)).1,
    (waitForStableRssi_delays_after_16bit_wrap scenarioConfig
      { scenarioState with lastChannelSwitchTime := 0, millis := 65536 }
      rfl rfl (by decide) (by decide)).2.2⟩

/-! ## Normalisation of the raw readings -/

theorem map_of_le (r cmin cmax : Nat) (h : cmin < cmax) (hr : cmin ≤ r) (hr16 : r < 2 ^ 16)
    (hc : cmax < 2 ^ 16) :
    map r cmin cmax 0 100 = some (((r - cmin) * 100 / (cmax - cmin) : Nat) : Int) := by
  have hq : (((r : Int) - cmin) * (100 - 0)).tdiv ((cmax : Int) - cmin)
      = (((r - cmin) * 100 / (cmax - cmin) : Nat) : Int) := by
    rw [Int.ofNat_tdiv]
    congr 1
    · push_cast [Nat.cast_sub hr]; ring
    · push_cast [Nat.cast_sub h.le]; ring
  have hb : (r - cmin) * 100 / (cmax - cmin) ≤ (r - cmin) * 100 := Nat.div_le_self _ _
  unfold map
  rw [hq]
  generalize (r - cmin) * 100 / (cmax - cmin) = q at hb
  rw [if_pos]
  · simp
  · simp only [inLong]
    omega

theorem map_of_lt (r cmin cmax : Nat) (h : cmin < cmax) (hr : r < cmin) (hc : cmax < 2 ^ 16) :
    map r cmin cmax 0 100 = some (-(((cmin - r) * 100 / (cmax - cmin) : Nat) : Int)) := by
  have hq : (((r : Int) - cmin) * (100 - 0)).tdiv ((cmax : Int) - cmin)
      = -(((cmin - r) * 100 / (cmax - cmin) : Nat) : Int) := by
    rw [Int.ofNat_tdiv, ← Int.neg_tdiv]
    congr 1
    · push_cast [Nat.cast_sub hr.le]; ring
    · push_cast [Nat.cast_sub h.le]; ring
  have hb : (cmin - r) * 100 / (cmax - cmin) ≤ (cmin - r) * 100 := Nat.div_le_self _ _
  unfold map
  rw [hq]
  generalize (cmin - r) * 100 / (cmax - cmin) = q at hb
  rw [if_pos]
  · simp
  · simp only [inLong]
    omega

/-- Closed form of the normalisation on a proper calibration range. -/
theorem normalise_eq (r cmin cmax : Nat) (h : cmin < cmax) (hr16 : r < 2 ^ 16)
    (hc : cmax < 2 ^ 16) :
    normalise r cmin cmax
      = some (if r < cmin then 0 else min 100 ((r - cmin) * 100 / (cmax - cmin))) := by
  unfold normalise
  by_cases hr : r < cmin
  · rw [map_of_lt r cmin cmax h hr hc, if_pos hr]
    simp only [Option.map_some', constrain, toUint8]
    generalize (cmin - r) * 100 / (cmax - cmin) = q
    congr 1
    split_ifs <;> omega
  · rw [map_of_le r cmin cmax h (Nat.le_of_not_lt hr) hr16 hc, if_neg hr]
    simp only [Option.map_some', constrain, toUint8]
    generalize (r - cmin) * 100 / (cmax - cmin) = q
    congr 1
    split_ifs <;> omega

theorem normalise_degenerate (r c : Nat) : normalise r c c = none := by
  simp [normalise, map]

theorem waitForStableRssi_eepromSettings (cfg : Config) (s : State) :
    (waitForStableRssi cfg s).eepromSettings = s.eepromSettings := by
  unfold waitForStableRssi
  split_ifs <;> rfl

/-- The call `updateRssi` has no defined result: where its statements have
one, control reaches the end of a function that must return a value. -/
theorem updateRssi_eq_none (cfg : Config) (readA readB : Nat) (ticked : Bool) (s : State) :
    updateRssi cfg readA readB ticked s = none := by
  unfold updateRssi sampleRssi
  split <;> rfl

/-- What the reads and the normalisations store: both scores are
normalisations of the primary raw reading. -/
theorem readRssi_some (readA readB : Nat) (s st : State)
    (h : readRssi readA readB s = some st) :
    normalise (readA % 2 ^ 16) s.eepromSettings.rssiAMin s.eepromSettings.rssiAMax
        = some st.rssiA ∧
      normalise (readA % 2 ^ 16) s.eepromSettings.rssiBMin s.eepromSettings.rssiBMax
        = some st.rssiB ∧
      st.rssiARaw = readA % 2 ^ 16 ∧ st.rssiBRaw = readB % 2 ^ 16 ∧
      st.rssiALast = s.rssiALast ∧ st.rssiBLast = s.rssiBLast := by
  unfold readRssi at h
  rw [Option.bind_eq_some] at h
  obtain ⟨s1, h1, h2⟩ := h
  unfold scoreRssiA at h1
  unfold scoreRssiB at h2
  simp only [Option.map_eq_some'] at h1 h2
  obtain ⟨a, ha, rfl⟩ := h1
  obtain ⟨b, hb, rfl⟩ := h2
  exact ⟨ha, hb, rfl, rfl, rfl, rfl⟩

/-- The reads and the normalisations have a defined result as soon as both
normalisations have one. -/
theorem readRssi_isSome (readA readB : Nat) (s : State) (a b : Nat)
    (ha : normalise (readA % 2 ^ 16) s.eepromSettings.rssiAMin s.eepromSettings.rssiAMax
      = some a)
    (hb : normalise (readA % 2 ^ 16) s.eepromSettings.rssiBMin s.eepromSettings.rssiBMax
      = some b) :
    ∃ st, readRssi readA readB s = some st ∧ st.rssiA = a ∧ st.rssiB = b := by
  unfold readRssi scoreRssiA
  simp only [ha, Option.map_some', Option.some_bind]
  unfold scoreRssiB
  simp only [hb, Option.map_some']
  exact ⟨_, rfl, rfl, rfl⟩

/-- The history update leaves the scores and the raw readings alone. -/
theorem logRssi_scores (cfg : Config) (ticked : Bool) (s st : State)
    (h : logRssi cfg ticked s = some st) :
    st.rssiA = s.rssiA ∧ st.rssiB = s.rssiB ∧ st.rssiARaw = s.rssiARaw ∧
      st.rssiBRaw = s.rssiBRaw := by
  unfold logRssi at h
  split_ifs at h
  · split at h
    · cases h
      exact ⟨rfl, rfl, rfl, rfl⟩
    · cases h
  · cases h
    exact ⟨rfl, rfl, rfl, rfl⟩

theorem waitForStableRssi_histories (cfg : Config) (s : State) :
    (waitForStableRssi cfg s).rssiALast = s.rssiALast ∧
      (waitForStableRssi cfg s).rssiBLast = s.rssiBLast := by
  unfold waitForStableRssi
  split_ifs <;> exact ⟨rfl, rfl⟩

/-- What the statements of `updateRssi` have stored when control reaches the
end of the function: both scores are normalisations of the primary raw
reading. -/
theorem updateRssiBody_some (cfg : Config) (s st : State) (readA readB : Nat)
    (ticked : Bool) (h : updateRssiBody cfg readA readB ticked s = some st) :
    normalise (readA % 2 ^ 16) s.eepromSettings.rssiAMin s.eepromSettings.rssiAMax
        = some st.rssiA ∧
      normalise (readA % 2 ^ 16) s.eepromSettings.rssiBMin s.eepromSettings.rssiBMax
        = some st.rssiB ∧
      st.rssiARaw = readA % 2 ^ 16 ∧ st.rssiBRaw = readB % 2 ^ 16 := by
  unfold updateRssiBody sampleRssiBody at h
  rw [Option.bind_eq_some] at h
  obtain ⟨st0, h0, h1⟩ := h
  have hr := readRssi_some readA readB _ st0 h0
  rw [waitForStableRssi_eepromSettings] at hr
  have hl := logRssi_scores cfg ticked st0 st h1
  rw [hl.1, hl.2.1, hl.2.2.1, hl.2.2.2]
  exact ⟨hr.1, hr.2.1, hr.2.2.1, hr.2.2.2.1⟩

/-! ## The shift loop of the histories -/

theorem shiftFold_length (js : List Nat) (l : List Nat) :
    (js.foldl (fun l i => l.set i (l.getD (i + 1) 0)) l).length = l.length := by
  induction js generalizing l with
  | nil => rfl
  | cons j js ih => rw [List.foldl_cons, ih, List.length_set]

/-- The array after `j` rounds of the loop `last[i] = last[i + 1]`: the first
`j` cells hold their right neighbours, the other cells are untouched. -/
theorem shiftFold_getElem? (l : List Nat) (j : Nat) (hj : j + 1 ≤ l.length) (i : Nat) :
    ((List.range j).foldl (fun l i => l.set i (l.getD (i + 1) 0)) l)[i]?
      = if i < j then l[i + 1]? else l[i]? := by
  induction j generalizing i with
  | zero => simp
  | succ j ih =>
    rw [List.range_succ, List.foldl_append, List.foldl_cons, List.foldl_nil,
      List.getElem?_set, shiftFold_length]
    by_cases hij : j = i
    · subst hij
      have h1 := ih (by omega) (j + 1)
      rw [if_neg (by omega)] at h1
      rw [if_pos rfl, if_pos (by omega), if_pos (by omega), List.getD_eq_getElem?_getD, h1,
        List.getElem?_eq_getElem (show j + 1 < l.length by omega)]
      rfl
    · rw [if_neg hij, ih (by omega) i]
      by_cases h2 : i < j
      · rw [if_pos h2, if_pos (by omega)]
      · rw [if_neg h2, if_neg (by omega)]

/-- All rounds of the loop on a full array followed by the store of the new
score discard the oldest entry and put the new score last. -/
theorem shiftFold_set_eq (size : Nat) (last : List Nat) (score : Nat) (h1 : 1 ≤ size)
    (hlen : last.length = size) :
    ((List.range (size - 1)).foldl (fun l i => l.set i (l.getD (i + 1) 0)) last).set
      (size - 1) score = last.tail ++ [score] := by
  apply List.ext_getElem?
  intro i
  rw [List.getElem?_set, shiftFold_length, shiftFold_getElem? last (size - 1) (by omega),
    List.getElem?_append, List.length_tail, ← List.drop_one, List.getElem?_drop]
  by_cases hi : size - 1 = i
  · subst hi
    rw [if_pos rfl, if_pos (by omega), if_neg (by omega), hlen, Nat.sub_self]
    rfl
  · rw [if_neg hi, hlen]
    by_cases h2 : i < size - 1
    · rw [if_pos h2, if_pos h2, Nat.add_comm]
    · rw [if_neg h2, if_neg h2, List.getElem?_eq_none (by omega),
        List.getElem?_eq_none (by simp; omega)]

/-- With at most 256 entries the loop ends, having made its `size - 1`
rounds. -/
theorem shiftLoop_eq_fold (size : Nat) (last : List Nat) (hsize : size - 1 < 2 ^ 8)
    (fuel i : Nat) (hi : i ≤ size - 1) (hfuel : size - 1 - i < fuel) :
    shiftLoop size fuel i
        ((List.range i).foldl (fun l i => l.set i (l.getD (i + 1) 0)) last)
      = some ((List.range (size - 1)).foldl (fun l i => l.set i (l.getD (i + 1) 0)) last) := by
  induction fuel generalizing i with
  | zero => omega
  | succ fuel ih =>
    unfold shiftLoop
    by_cases hlt : i < size - 1
    · rw [if_pos hlt, Nat.mod_eq_of_lt (by omega)]
      have := ih (i + 1) (by omega) (by omega)
      rw [List.range_succ, List.foldl_append, List.foldl_cons, List.foldl_nil] at this
      exact this
    · rw [if_neg hlt]
      have : i = size - 1 := by omega
      rw [this]

/-- With more than 256 entries the condition `i < size - 1` holds for every
value of the 8-bit counter: the loop never ends. -/
theorem shiftLoop_never_ends (size : Nat) (hsize : 2 ^ 8 ≤ size - 1) (fuel i : Nat)
    (last : List Nat) (hi : i < 2 ^ 8) : shiftLoop size fuel i last = none := by
  induction fuel generalizing i last with
  | zero => rfl
  | succ fuel ih =>
    unfold shiftLoop
    rw [if_pos (by omega)]
    exact ih _ _ (Nat.mod_lt _ (by decide))

theorem shiftHistory_isSome (size : Nat) (last : List Nat) (score : Nat)
    (hK : size ≤ 256) : ∃ l, shiftHistory size last score = some l := by
  unfold shiftHistory
  have := shiftLoop_eq_fold size last (by omega) (2 ^ 8 + 1) 0 (Nat.zero_le _) (by omega)
  rw [List.range_zero, List.foldl_nil] at this
  rw [this]
  exact ⟨_, rfl⟩

/-- One append to a full history buffer of at most 256 entries discards its
oldest entry and puts the new score last. -/
theorem shiftHistory_eq (size : Nat) (last : List Nat) (score : Nat) (h1 : 1 ≤ size)
    (hK : size ≤ 256) (hlen : last.length = size) :
    shiftHistory size last score = some (last.tail ++ [score]) := by
  unfold shiftHistory
  have := shiftLoop_eq_fold size last (by omega) (2 ^ 8 + 1) 0 (Nat.zero_le _) (by omega)
  rw [List.range_zero, List.foldl_nil] at this
  rw [this, Option.map_some', shiftFold_set_eq size last score h1 hlen]

theorem shiftHistory_never_ends (size : Nat) (last : List Nat) (score : Nat)
    (hK : 257 ≤ size) : shiftHistory size last score = none := by
  unfold shiftHistory
  rw [shiftLoop_never_ends size (by omega) _ 0 last (by decide)]
  rfl

/-- The history update has a defined result when the timer has not ticked or
the histories have at most 256 entries. -/
theorem logRssi_isSome (cfg : Config) (ticked : Bool) (s : State)
    (h : ticked = false ∨ cfg.RECEIVER_LAST_DATA_SIZE ≤ 256) :
    ∃ st, logRssi cfg ticked s = some st := by
  unfold logRssi
  by_cases ht : ticked = true
  · rw [if_pos ht]
    have hK : cfg.RECEIVER_LAST_DATA_SIZE ≤ 256 := by
      rcases h with h | h
      · rw [ht] at h
        cases h
      · exact h
    obtain ⟨la, hla⟩ := shiftHistory_isSome _ s.rssiALast s.rssiA hK
    obtain ⟨lb, hlb⟩ := shiftHistory_isSome _ s.rssiBLast s.rssiB hK
    rw [hla, hlb]
    exact ⟨_, rfl⟩
  · rw [if_neg ht]
    exact ⟨s, rfl⟩

/-- C3. Evaluation at an input where the claim fails: with the secondary path
calibrated to raw readings from 100 to 300, a primary reading of 100 and a
secondary reading of 300, the statements of `updateRssi` store the secondary
reading 300 and the secondary score 0, which is the normalisation of the
primary reading; the normalisation of the secondary path's own reading is
100. -/
theorem updateRssi_secondary_score_from_primary_reading :
    (updateRssiBody scenarioConfig 100 300 false scenarioState).map
        (fun s => (s.rssiBRaw, s.rssiB)) = some (300, 0) ∧
      normalise 100 scenarioState.eepromSettings.rssiBMin
        scenarioState.eepromSettings.rssiBMax = some 0 ∧
      normalise 300 scenarioState.eepromSettings.rssiBMin
        scenarioState.eepromSettings.rssiBMax = some 100 := by
  decide

/-- C4. For a primary calibration pair with `rssiAMin < rssiAMax` (both
`uint16_t`) and a raw reading `r` with `rssiAMin ≤ r ≤ rssiAMax`, the primary
normalisation is defined and equals the truncating linear map
`(r - rssiAMin) * 100 / (rssiAMax - rssiAMin)`, which lies in `[0, 100]`. It is
the score `rssiA` that `updateRssi` computes: its statements up to line 85
have a defined result, with this value stored in `rssiA`; it is still the value
of `rssiA` in every state in which control reaches the end of the function,
and such a state exists as soon as the secondary normalisation is defined too
and the history loop ends. -/
theorem updateRssi_primary_score_in_range (cfg : Config) (s : State)
    (readA readB : Nat) (ticked : Bool)
    (hcal : s.eepromSettings.rssiAMin < s.eepromSettings.rssiAMax)
    (h16 : s.eepromSettings.rssiAMax < 2 ^ 16)
    (hlo : s.eepromSettings.rssiAMin ≤ readA) (hhi : readA ≤ s.eepromSettings.rssiAMax) :
    normalise readA s.eepromSettings.rssiAMin s.eepromSettings.rssiAMax
        = some ((readA - s.eepromSettings.rssiAMin) * 100
            / (s.eepromSettings.rssiAMax - s.eepromSettings.rssiAMin)) ∧
      (readA - s.eepromSettings.rssiAMin) * 100
          / (s.eepromSettings.rssiAMax - s.eepromSettings.rssiAMin) ≤ 100 ∧
      (∃ st, scoreRssiA readA readB (waitForStableRssi cfg s) = some st ∧
        st.rssiA = (readA - s.eepromSettings.rssiAMin) * 100
            / (s.eepromSettings.rssiAMax - s.eepromSettings.rssiAMin)) ∧
      (∀ st, updateRssiBody cfg readA readB ticked s = some st →
        st.rssiA = (readA - s.eepromSettings.rssiAMin) * 100
            / (s.eepromSettings.rssiAMax - s.eepromSettings.rssiAMin)) ∧
      ((normalise readA s.eepromSettings.rssiBMin s.eepromSettings.rssiBMax).isSome →
        ticked = false ∨ cfg.RECEIVER_LAST_DATA_SIZE ≤ 256 →
        ∃ st, updateRssiBody cfg readA readB ticked s = some st ∧
          st.rssiA = (readA - s.eepromSettings.rssiAMin) * 100
            / (s.eepromSettings.rssiAMax - s.eepromSettings.rssiAMin)) := by
  have hr16 : readA < 2 ^ 16 := by omega
  have hmod : readA % 2 ^ 16 = readA := Nat.mod_eq_of_lt hr16
  have hv : (readA - s.eepromSettings.rssiAMin) * 100
      / (s.eepromSettings.rssiAMax - s.eepromSettings.rssiAMin) ≤ 100 := by
    apply Nat.div_le_of_le_mul
    have : readA - s.eepromSettings.rssiAMin
        ≤ s.eepromSettings.rssiAMax - s.eepromSettings.rssiAMin := by omega
    nlinarith
  have hn : normalise readA s.eepromSettings.rssiAMin s.eepromSettings.rssiAMax
      = some ((readA - s.eepromSettings.rssiAMin) * 100
          / (s.eepromSettings.rssiAMax - s.eepromSettings.rssiAMin)) := by
    rw [normalise_eq _ _ _ hcal hr16 h16, if_neg (by omega), Nat.min_eq_right hv]
  have hbody : ∀ st, updateRssiBody cfg readA readB ticked s = some st →
      st.rssiA = (readA - s.eepromSettings.rssiAMin) * 100
          / (s.eepromSettings.rssiAMax - s.eepromSettings.rssiAMin) := by
    intro st h
    have h1 := (updateRssiBody_some cfg s st readA readB ticked h).1
    rw [hmod, hn] at h1
    exact (Option.some.inj h1).symm
  have hscore : ∃ st, scoreRssiA readA readB (waitForStableRssi cfg s) = some st ∧
      st.rssiA = (readA - s.eepromSettings.rssiAMin) * 100
          / (s.eepromSettings.rssiAMax - s.eepromSettings.rssiAMin) := by
    unfold scoreRssiA
    simp only [waitForStableRssi_eepromSettings, hmod, hn, Option.map_some']
    exact ⟨_, rfl, rfl⟩
  refine ⟨hn, hv, hscore, hbody, ?_⟩
  intro hb hloop
  obtain ⟨b, hb⟩ := Option.isSome_iff_exists.mp hb
  obtain ⟨st0, h0, _, _⟩ := readRssi_isSome readA readB (waitForStableRssi cfg s) _ b
    (by rw [waitForStableRssi_eepromSettings, hmod]; exact hn)
    (by rw [waitForStableRssi_eepromSettings, hmod]; exact hb)
  obtain ⟨st, h1⟩ := logRssi_isSome cfg ticked st0 hloop
  have hst : updateRssiBody cfg readA readB ticked s = some st := by
    unfold updateRssiBody sampleRssiBody
    rw [h0]
    exact h1
  exact ⟨st, hst, hbody st hst⟩

theorem updateRssi_primary_score_in_range_witness :
    normalise 150 100 300 = some 25 ∧
      (∃ st, scoreRssiA 150 250 (waitForStableRssi scenarioConfig scenarioState) = some st ∧
        st.rssiA = 25) ∧
      ∃ st, updateRssiBody scenarioConfig 150 250 true scenarioState = some st ∧
        st.rssiA = 25 :=
  ⟨(updateRssi_primary_score_in_range scenarioConfig scenarioState 150 250 true
      (by decide) (by decide) (by decide) (by decide)).1,
    (updateRssi_primary_score_in_range scenarioConfig scenarioState 150 250 true
      (by decide) (by decide) (by decide) (by decide)).2.2.1,
    (updateRssi_primary_score_in_range scenarioConfig scenarioState 150 250 true
      (by decide) (by decide) (by decide) (by decide)).2.2.2.2 (by decide)
        (Or.inr (by decide))⟩

/-- C5. For a calibration pair with `calibrationMin < calibrationMax` (both
`uint16_t`), the normalisation `constrain(map(r, ...), 0, 100)` is defined on
every `uint16_t` reading and non-decreasing in it. -/
theorem normalise_monotone (cmin cmax r1 r2 : Nat) (hcal : cmin < cmax)
    (h16 : cmax < 2 ^ 16) (h12 : r1 ≤ r2) (hr : r2 < 2 ^ 16) :
    ∃ v1 v2, normalise r1 cmin cmax = some v1 ∧ normalise r2 cmin cmax = some v2 ∧
      v1 ≤ v2 := by
  refine ⟨_, _, normalise_eq r1 cmin cmax hcal (by omega) h16,
    normalise_eq r2 cmin cmax hcal hr h16, ?_⟩
  by_cases h1 : r1 < cmin
  · rw [if_pos h1]
    exact Nat.zero_le _
  · have h2 : ¬ r2 < cmin := by omega
    rw [if_neg h1, if_neg h2]
    have hd : (r1 - cmin) * 100 / (cmax - cmin) ≤ (r2 - cmin) * 100 / (cmax - cmin) :=
      Nat.div_le_div_right (Nat.mul_le_mul_right 100 (by omega))
    omega

theorem normalise_monotone_witness :
    ∃ v1 v2, normalise 150 100 300 = some v1 ∧ normalise 151 100 300 = some v2 ∧ v1 ≤ v2 :=
  normalise_monotone 100 300 150 151 (by decide) (by decide) (by decide) (by decide)

/-- C6. Saturation: for a calibration pair with `calibrationMin <
calibrationMax` (both `uint16_t`) and a `uint16_t` reading `r`, the score is 0
when `r < calibrationMin` (the `long` quotient, truncated toward zero, is then
at most 0) and 100 when `r > calibrationMax`; for the primary pair these are
the values of `rssiA` that `updateRssi` stores, in every state in which control
reaches the end of its statements. -/
theorem normalise_saturates (cfg : Config) (s : State) (r readB cmin cmax : Nat)
    (ticked : Bool) (hcal : cmin < cmax) (h16 : cmax < 2 ^ 16) (hr : r < 2 ^ 16) :
    (r < cmin → normalise r cmin cmax = some 0 ∧
        ∃ q : Nat, map r cmin cmax 0 100 = some (-(q : Int))) ∧
      (cmax < r → normalise r cmin cmax = some 100) ∧
      (cmin = s.eepromSettings.rssiAMin → cmax = s.eepromSettings.rssiAMax →
        ∀ s', updateRssi cfg r readB ticked s = some s' →
          (r < cmin → s'.rssiA = 0) ∧ (cmax < r → s'.rssiA = 100)) ∧
      (cmin = s.eepromSettings.rssiAMin → cmax = s.eepromSettings.rssiAMax →
        ∀ st, updateRssiBody cfg r readB ticked s = some st →
          (r < cmin → st.rssiA = 0) ∧ (cmax < r → st.rssiA = 100)) := by
  have hlo : r < cmin → normalise r cmin cmax = some 0 := by
    intro h
    rw [normalise_eq r cmin cmax hcal hr h16, if_pos h]
  have hhi : cmax < r → normalise r cmin cmax = some 100 := by
    intro h
    have hq : 100 ≤ (r - cmin) * 100 / (cmax - cmin) := by
      rw [Nat.le_div_iff_mul_le (by omega)]
      have : cmax - cmin ≤ r - cmin := by omega
      nlinarith
    rw [normalise_eq r cmin cmax hcal hr h16, if_neg (by omega), Nat.min_eq_left hq]
  refine ⟨fun h => ⟨hlo h, _, map_of_lt r cmin cmax hcal h h16⟩, hhi, ?_, ?_⟩
  · intro _ _ s' h
    rw [updateRssi_eq_none] at h
    cases h
  intro hmin hmax s' h
  have h1 := (updateRssiBody_some cfg s s' r readB ticked h).1
  rw [Nat.mod_eq_of_lt hr, ← hmin, ← hmax] at h1
  constructor
  · intro hlt
    rw [hlo hlt] at h1
    exact (Option.some.inj h1).symm
  · intro hgt
    rw [hhi hgt] at h1
    exact (Option.some.inj h1).symm

theorem normalise_saturates_witness :
    normalise 40 100 300 = some 0 ∧ normalise 900 100 300 = some 100 :=
  ⟨((normalise_saturates scenarioConfig scenarioState 40 0 100 300 false
      (by decide) (by decide) (by decide)).1 (by decide)).1,
    (normalise_saturates scenarioConfig scenarioState 900 0 100 300 false
      (by decide) (by decide) (by decide)).2.1 (by decide)⟩

/-- C7. Evaluation on the degenerate calibration `rssiAMin == rssiAMax`: the
divisor `in_max - in_min` of `map` is zero, so the normalisation has no defined
value for any reading, and neither has `updateRssi`: its statements stop at
the division. -/
theorem updateRssi_undefined_on_degenerate_calibration (cfg : Config) (s : State)
    (readA readB : Nat) (ticked : Bool)
    (h : s.eepromSettings.rssiAMin = s.eepromSettings.rssiAMax) :
    map (readA % 2 ^ 16 : Nat) s.eepromSettings.rssiAMin s.eepromSettings.rssiAMax 0 100
        = none ∧
      normalise (readA % 2 ^ 16) s.eepromSettings.rssiAMin s.eepromSettings.rssiAMax
        = none ∧
      updateRssi cfg readA readB ticked s = none ∧
      readRssi readA readB (waitForStableRssi cfg s) = none ∧
      updateRssiBody cfg readA readB ticked s = none := by
  have hn : normalise (readA % 2 ^ 16) s.eepromSettings.rssiAMin s.eepromSettings.rssiAMax
      = none := by
    rw [h]
    exact normalise_degenerate _ _
  have hread : readRssi readA readB (waitForStableRssi cfg s) = none := by
    unfold readRssi scoreRssiA
    simp only [waitForStableRssi_eepromSettings, hn, Option.map_none', Option.none_bind]
  refine ⟨by simp [map, h], hn, updateRssi_eq_none cfg readA readB ticked s, hread, ?_⟩
  unfold updateRssiBody sampleRssiBody
  rw [hread]
  rfl

theorem updateRssi_undefined_on_degenerate_calibration_witness :
    updateRssi scenarioConfig 300 300 false
        { scenarioState with
          eepromSettings := { scenarioState.eepromSettings with rssiAMin := 300 } } = none ∧
      updateRssiBody scenarioConfig 300 300 false
        { scenarioState with
          eepromSettings := { scenarioState.eepromSettings with rssiAMin := 300 } } = none :=
  ⟨(updateRssi_undefined_on_degenerate_calibration scenarioConfig
      { scenarioState with
        eepromSettings := { scenarioState.eepromSettings with rssiAMin := 300 } }
      300 300 false rfl).2.2.1,
    (updateRssi_undefined_on_degenerate_calibration scenarioConfig
      { scenarioState with
        eepromSettings := { scenarioState.eepromSettings with rssiAMin := 300 } }
      300 300 false rfl).2.2.2.2⟩

/-! ## Hysteresis counter -/

/-- One call of `switchDiversity` keeps the counter at or below its bound. -/
theorem switchDiversity_tick_le (cfg : Config) (s s' : State)
    (h : switchDiversity cfg s = some s')
    (hs : s.diversityCheckTick ≤ cfg.DIVERSITY_MAX_CHECKS) :
    s'.diversityCheckTick ≤ cfg.DIVERSITY_MAX_CHECKS := by
  unfold switchDiversity at h
  by_cases hmode : s.eepromSettings.diversityMode = DIVERSITY_AUTO
  · rw [if_pos hmode] at h
    cases hd : rssiDiff s.rssiA s.rssiB with
    | none =>
      rw [hd] at h
      cases h
    | some diff =>
      rw [hd] at h
      by_cases hcut : cfg.DIVERSITY_CUTOVER ≤ diff
      · simp only [if_pos hcut, Option.some.injEq] at h
        subst h
        simp only [setActiveReceiver]
        split_ifs <;> omega
      · simp only [if_neg hcut, Option.some.injEq] at h
        subst h
        exact hs
  · rw [if_neg hmode] at h
    split_ifs at h <;> cases h <;> exact hs

theorem Call.apply_tick_le (cfg : Config) (c : Call) (s s' : State)
    (h : c.apply cfg s = some s')
    (hs : s.diversityCheckTick ≤ cfg.DIVERSITY_MAX_CHECKS) :
    s'.diversityCheckTick ≤ cfg.DIVERSITY_MAX_CHECKS := by
  cases c with
  | setScores a b =>
    cases h
    exact hs
  | switchDiversity => exact switchDiversity_tick_le cfg s s' h hs
  | setDiversityMode mode => exact switchDiversity_tick_le cfg _ s' h hs

theorem run_tick_le (cfg : Config) (calls : List Call) (s s' : State)
    (h : run cfg calls s = some s')
    (hs : s.diversityCheckTick ≤ cfg.DIVERSITY_MAX_CHECKS) :
    s'.diversityCheckTick ≤ cfg.DIVERSITY_MAX_CHECKS := by
  induction calls generalizing s with
  | nil =>
    cases h
    exact hs
  | cons c cs ih =>
    simp only [run, Option.bind_eq_some] at h
    obtain ⟨s1, h1, h2⟩ := h
    exact ih s1 h2 (Call.apply_tick_le cfg c s s1 h1 hs)

/-- C8. Counter invariant: in every state reached from a start-up state
(counter 0, any stored mode) by any sequence of `switchDiversity` and
`setDiversityMode` calls, with any mode argument and any scores in place at
each call, `0 ≤ diversityCheckTick ≤ DIVERSITY_MAX_CHECKS`. -/
theorem diversityCheckTick_bounded (cfg : Config) (e : EepromSettings) (now : Nat)
    (calls : List Call) (s : State) (h : run cfg calls (initial cfg e now) = some s) :
    0 ≤ s.diversityCheckTick ∧ s.diversityCheckTick ≤ cfg.DIVERSITY_MAX_CHECKS :=
  ⟨Nat.zero_le _, run_tick_le cfg calls _ s h (Nat.zero_le _)⟩

theorem diversityCheckTick_bounded_witness :
    ∃ s, run scenarioConfig
        [Call.setScores 50 90, Call.switchDiversity, Call.switchDiversity,
          Call.setDiversityMode DIVERSITY_FORCE_B, Call.setScores 90 50,
          Call.setDiversityMode DIVERSITY_AUTO] scenarioState = some s ∧
      s.diversityCheckTick ≤ 4 :=
  ⟨_, rfl, (diversityCheckTick_bounded scenarioConfig (scenarioSettings DIVERSITY_AUTO) 1000
    [Call.setScores 50 90, Call.switchDiversity, Call.switchDiversity,
      Call.setDiversityMode DIVERSITY_FORCE_B, Call.setScores 90 50,
      Call.setDiversityMode DIVERSITY_AUTO] _ rfl).2⟩

/-! ## The relative difference is defined for a non-zero secondary score -/

theorem bitLength_le (fuel n w : Nat) (h : n < 2 ^ w) : bitLength fuel n ≤ w := by
  induction fuel generalizing n w with
  | zero => simp [bitLength]
  | succ f ih =>
    unfold bitLength
    split_ifs with h0
    · exact Nat.zero_le _
    · cases w with
      | zero => simp at h; exact absurd h h0
      | succ w =>
        have : n / 2 < 2 ^ w := by
          rw [Nat.div_lt_iff_lt_mul (by decide)]
          rw [pow_succ] at h
          exact h
        have := ih (n / 2) w this
        omega

theorem le_bitLength (t fuel n : Nat) (hf : t < fuel) (h : 2 ^ t ≤ n) :
    t + 1 ≤ bitLength fuel n := by
  induction t generalizing fuel n with
  | zero =>
    cases fuel with
    | zero => omega
    | succ f =>
      unfold bitLength
      have : n ≠ 0 := by simp at h; omega
      rw [if_neg this]
      omega
  | succ t ih =>
    cases fuel with
    | zero => omega
    | succ f =>
      unfold bitLength
      have hpos : 0 < 2 ^ (t + 1) := Nat.pow_pos (by decide)
      have : n ≠ 0 := by omega
      rw [if_neg this]
      have h2 : 2 ^ t ≤ n / 2 := by
        rw [Nat.le_div_iff_mul_le (by decide)]
        rw [pow_succ] at h
        exact h
      have := ih f (n / 2) (by omega) h2
      omega

theorem roundHalfEven_le (n d : Nat) : roundHalfEven n d ≤ n / d + 1 := by
  unfold roundHalfEven
  split_ifs <;> omega

/-- Exponent and significand of a rounded positive fraction. -/
theorem f32Round_bound (n d w t : Nat) (hn : 0 < n) (hnw : n < 2 ^ w) (hd : 2 ^ t ≤ d)
    (hwt : w < t + 24) :
    ∃ k : Nat, (f32Round n d).2 = -(k : Int) ∧ t + 24 ≤ w + k ∧
      (f32Round n d).1 ≤ n * 2 ^ k / d + 1 := by
  have h1 : bitLength n n ≤ w := bitLength_le n n w hnw
  have h2 : t + 1 ≤ bitLength d d :=
    le_bitLength t d d (Nat.lt_of_lt_of_le (Nat.lt_two_pow t) hd) hd
  unfold f32Round
  rw [if_neg (by omega)]
  simp only
  generalize hb1 : bitLength n n = b1 at *
  generalize hb2 : bitLength d d = b2 at *
  generalize he0 : ((b1 : Int) - (b2 : Int) - 24) = e0
  split_ifs with hc
  · refine ⟨(-(e0 + 1)).toNat, by omega, by omega, ?_⟩
    have : ¬ (0 ≤ e0 + 1) := by omega
    simp only [scaleBy, if_neg this]
    exact roundHalfEven_le _ _
  · refine ⟨(-e0).toNat, by omega, by omega, ?_⟩
    have : ¬ (0 ≤ e0) := by omega
    simp only [scaleBy, if_neg this]
    exact roundHalfEven_le _ _


theorem f32Round_hundred : f32Round 100 1 = (13107200, -17) := by decide

theorem f32Trunc_neg_exponent (m k : Nat) : f32Trunc (m, -(k : Int)) = m / 2 ^ k := by
  simp [f32Trunc, scaleBy]

theorem f32Mul_neg_exponents (m1 m2 k1 k2 : Nat) :
    f32Mul (m1, -(k1 : Int)) (m2, -(k2 : Int)) = f32Round (m1 * m2) (2 ^ (k1 + k2)) := by
  have h : -(-(k1 : Int) + -(k2 : Int)) = ((k1 + k2 : Nat) : Int) := by push_cast; ring
  simp only [f32Mul, h, scaleBy, Int.toNat_ofNat, Int.ofNat_nonneg, if_true, one_mul]

/-- The percentage computed by `switchDiversity` stays far below the range of
the 16-bit `int` whenever the secondary score is not zero. -/
theorem percent_lt (n b : Nat) (hn : n < 2 ^ 8) (hb : 0 < b) :
    f32Trunc (f32Mul (f32Round n b) (f32Round 100 1)) < 2 ^ 15 := by
  rw [f32Round_hundred]
  by_cases h0 : n = 0
  · subst h0
    have hz : f32Round 0 b = (0, 0) := by simp [f32Round]
    rw [hz]
    decide
  · obtain ⟨k1, he1, hk1, hm1⟩ := f32Round_bound n b 8 0 (by omega) hn (by omega) (by omega)
    have hq : n * 2 ^ k1 / b ≤ 255 * 2 ^ k1 := by
      apply Nat.div_le_of_le_mul
      calc n * 2 ^ k1 ≤ 255 * 2 ^ k1 := Nat.mul_le_mul_right _ (by omega)
        _ ≤ b * (255 * 2 ^ k1) := Nat.le_mul_of_pos_left _ hb
    have hX : 0 < 2 ^ k1 := Nat.pow_pos (by decide)
    have hr : f32Round n b = ((f32Round n b).1, -(k1 : Int)) := by
      rw [← he1]
    rw [hr, show ((13107200 : Nat), (-17 : Int)) = (13107200, -((17 : Nat) : Int)) from rfl,
      f32Mul_neg_exponents]
    generalize (f32Round n b).1 = m1 at hm1
    by_cases hP : m1 * 13107200 = 0
    · rw [hP]
      simp [f32Round, f32Trunc, scaleBy]
    · have hPlt : m1 * 13107200 < 2 ^ (k1 + 32) := by
        rw [pow_add]
        have : m1 ≤ 255 * 2 ^ k1 + 1 := by omega
        nlinarith
      obtain ⟨k2, he2, hk2, hm2⟩ := f32Round_bound (m1 * 13107200) (2 ^ (k1 + 17))
        (k1 + 32) (k1 + 17) (by omega) hPlt (le_refl _) (by omega)
      have hr2 : f32Round (m1 * 13107200) (2 ^ (k1 + 17))
          = ((f32Round (m1 * 13107200) (2 ^ (k1 + 17))).1, -(k2 : Int)) := by
        rw [← he2]
      rw [hr2, f32Trunc_neg_exponent]
      generalize (f32Round (m1 * 13107200) (2 ^ (k1 + 17))).1 = m2 at hm2
      have hY : 0 < 2 ^ k2 := Nat.pow_pos (by decide)
      have hq2 : m1 * 13107200 * 2 ^ k2 / 2 ^ (k1 + 17) ≤ 25600 * 2 ^ k2 := by
        apply Nat.div_le_of_le_mul
        rw [pow_add]
        have : m1 ≤ 255 * 2 ^ k1 + 1 := by omega
        have h3 : m1 * 13107200 ≤ 2 ^ k1 * 2 ^ 17 * 25600 := by nlinarith
        calc m1 * 13107200 * 2 ^ k2 ≤ 2 ^ k1 * 2 ^ 17 * 25600 * 2 ^ k2 :=
              Nat.mul_le_mul_right _ h3
          _ = 2 ^ k1 * 2 ^ 17 * (25600 * 2 ^ k2) := by ring
      rw [Nat.div_lt_iff_lt_mul hY]
      omega

theorem rssiDiff_isSome (rssiA rssiB : Nat) (hA : rssiA < 2 ^ 8) (hB : rssiB < 2 ^ 8)
    (h0 : 0 < rssiB) : ∃ diff, rssiDiff rssiA rssiB = some diff := by
  unfold rssiDiff
  rw [if_neg (by omega)]
  simp only
  rw [if_pos (percent_lt _ rssiB (by omega) h0)]
  exact ⟨_, rfl⟩

/-! ## Committing a switch in AUTO mode -/

/-- The effect of `switchDiversity` in AUTO mode on the counter and the active
path: nothing changes, or the counter moves by at most one step and the path is
chosen by the position of the counter. -/
theorem switchDiversity_auto_step (cfg : Config) (s s' : State)
    (hmode : s.eepromSettings.diversityMode = DIVERSITY_AUTO)
    (h : switchDiversity cfg s = some s') :
    s'.eepromSettings = s.eepromSettings ∧
      ((s'.diversityCheckTick = s.diversityCheckTick ∧ s'.activeReceiver = s.activeReceiver) ∨
        ((s'.diversityCheckTick = s.diversityCheckTick - 1 ∧ 0 < s.diversityCheckTick ∨
            s'.diversityCheckTick = (s.diversityCheckTick + 1) % 2 ^ 8 ∧
              s.diversityCheckTick < cfg.DIVERSITY_MAX_CHECKS ∨
            s'.diversityCheckTick = s.diversityCheckTick) ∧
          (s'.diversityCheckTick = 0 ∧ s'.activeReceiver = RECEIVER_A ∨
            s'.diversityCheckTick ≠ 0 ∧ cfg.DIVERSITY_MAX_CHECKS ≤ s'.diversityCheckTick ∧
              s'.activeReceiver = RECEIVER_B ∨
            s'.diversityCheckTick ≠ 0 ∧ s'.diversityCheckTick < cfg.DIVERSITY_MAX_CHECKS ∧
              s'.activeReceiver = s.activeReceiver))) := by
  unfold switchDiversity at h
  rw [if_pos hmode] at h
  cases hd : rssiDiff s.rssiA s.rssiB with
  | none =>
    rw [hd] at h
    cases h
  | some diff =>
    rw [hd] at h
    by_cases hcut : cfg.DIVERSITY_CUTOVER ≤ diff
    · simp only [if_pos hcut, Option.some.injEq] at h
      subst h
      refine ⟨rfl, Or.inr ?_⟩
      simp only [setActiveReceiver]
      split_ifs <;> omega
    · simp only [if_neg hcut, Option.some.injEq] at h
      subst h
      exact ⟨rfl, Or.inl ⟨rfl, rfl⟩⟩

theorem autoCycle_eq (cfg : Config) (p : Nat × Nat) (s : State) :
    autoCycle cfg p s
      = switchDiversity cfg { s with rssiA := p.1 % 2 ^ 8, rssiB := p.2 % 2 ^ 8 } := by
  simp [autoCycle, run, Call.apply]

/-- In AUTO mode the position of the counter and the active path stay
consistent: PRIMARY is active below the upper bound, SECONDARY above zero. -/
theorem autoCycle_invariant (cfg : Config) (p : Nat × Nat) (s s' : State)
    (hmax : 1 ≤ cfg.DIVERSITY_MAX_CHECKS) (hstep : autoCycle cfg p s = some s')
    (hinv : s.eepromSettings.diversityMode = DIVERSITY_AUTO ∧
      (s.activeReceiver = RECEIVER_A ∧ s.diversityCheckTick < cfg.DIVERSITY_MAX_CHECKS ∨
        s.activeReceiver = RECEIVER_B ∧ 0 < s.diversityCheckTick ∧
          s.diversityCheckTick ≤ cfg.DIVERSITY_MAX_CHECKS)) :
    s'.eepromSettings.diversityMode = DIVERSITY_AUTO ∧
      (s'.activeReceiver = RECEIVER_A ∧ s'.diversityCheckTick < cfg.DIVERSITY_MAX_CHECKS ∨
        s'.activeReceiver = RECEIVER_B ∧ 0 < s'.diversityCheckTick ∧
          s'.diversityCheckTick ≤ cfg.DIVERSITY_MAX_CHECKS) := by
  rw [autoCycle_eq] at hstep
  obtain ⟨he, hrel⟩ := switchDiversity_auto_step cfg
    { s with rssiA := p.1 % 2 ^ 8, rssiB := p.2 % 2 ^ 8 } s' hinv.1 hstep
  obtain ⟨hm, hr⟩ := hinv
  refine ⟨by rw [he]; exact hm, ?_⟩
  simp only [RECEIVER_A, RECEIVER_B] at *
  omega

theorem autoCycles_invariant (cfg : Config) (ps : List (Nat × Nat)) (s s' : State)
    (hmax : 1 ≤ cfg.DIVERSITY_MAX_CHECKS) (hrun : autoCycles cfg ps s = some s')
    (hinv : s.eepromSettings.diversityMode = DIVERSITY_AUTO ∧
      (s.activeReceiver = RECEIVER_A ∧ s.diversityCheckTick < cfg.DIVERSITY_MAX_CHECKS ∨
        s.activeReceiver = RECEIVER_B ∧ 0 < s.diversityCheckTick ∧
          s.diversityCheckTick ≤ cfg.DIVERSITY_MAX_CHECKS)) :
    s'.eepromSettings.diversityMode = DIVERSITY_AUTO ∧
      (s'.activeReceiver = RECEIVER_A ∧ s'.diversityCheckTick < cfg.DIVERSITY_MAX_CHECKS ∨
        s'.activeReceiver = RECEIVER_B ∧ 0 < s'.diversityCheckTick ∧
          s'.diversityCheckTick ≤ cfg.DIVERSITY_MAX_CHECKS) := by
  induction ps generalizing s with
  | nil =>
    cases hrun
    exact hinv
  | cons p ps ih =>
    simp only [autoCycles, Option.bind_eq_some] at hrun
    obtain ⟨s1, h1, h2⟩ := hrun
    exact ih s1 h2 (autoCycle_invariant cfg p s s1 hmax h1 hinv)

/-- C9, as stated, fails: from the start-up state with `DIVERSITY_CUTOVER = 20`
and `DIVERSITY_MAX_CHECKS = 4`, a cycle with scores (50, 90) takes the counter
from 0 to 1 with PRIMARY active, and a cycle with scores (90, 50) then takes it
back to 0: the counter has arrived at a bound, yet the active path is PRIMARY
before and after. -/
theorem autoCycle_arrival_without_switch :
    ∃ s s', autoCycles scenarioConfig [(50, 90)] scenarioState = some s ∧
      autoCycle scenarioConfig (90, 50) s = some s' ∧
      s.eepromSettings.diversityMode = DIVERSITY_AUTO ∧
      s.diversityCheckTick = 1 ∧ s'.diversityCheckTick = 0 ∧
      s.activeReceiver = RECEIVER_A ∧ s'.activeReceiver = RECEIVER_A ∧
      ¬ (s'.activeReceiver ≠ s.activeReceiver ↔
        (s'.diversityCheckTick = 0 ∨
            s'.diversityCheckTick = scenarioConfig.DIVERSITY_MAX_CHECKS) ∧
          s'.diversityCheckTick ≠ s.diversityCheckTick) :=
  ⟨_, _, rfl, rfl, by decide, by decide, by decide, by decide, by decide, by decide⟩

/-- In AUTO mode `switchDiversity` returns whenever the secondary score is not
zero. -/
theorem autoCycle_isSome (cfg : Config) (p : Nat × Nat) (s : State)
    (hmode : s.eepromSettings.diversityMode = DIVERSITY_AUTO) (hp : 0 < p.2 % 2 ^ 8) :
    ∃ s', autoCycle cfg p s = some s' := by
  obtain ⟨diff, hd⟩ := rssiDiff_isSome (p.1 % 2 ^ 8) (p.2 % 2 ^ 8)
    (Nat.mod_lt _ (by decide)) (Nat.mod_lt _ (by decide)) hp
  rw [autoCycle_eq]
  unfold switchDiversity
  simp only [if_pos hmode, hd]
  split_ifs <;> exact ⟨_, rfl⟩

theorem autoCycles_isSome (cfg : Config) (ps : List (Nat × Nat)) (s : State)
    (hmax : 1 ≤ cfg.DIVERSITY_MAX_CHECKS)
    (hinv : s.eepromSettings.diversityMode = DIVERSITY_AUTO ∧
      (s.activeReceiver = RECEIVER_A ∧ s.diversityCheckTick < cfg.DIVERSITY_MAX_CHECKS ∨
        s.activeReceiver = RECEIVER_B ∧ 0 < s.diversityCheckTick ∧
          s.diversityCheckTick ≤ cfg.DIVERSITY_MAX_CHECKS))
    (hps : ∀ q ∈ ps, 0 < q.2 % 2 ^ 8) :
    ∃ s', autoCycles cfg ps s = some s' := by
  induction ps generalizing s with
  | nil => exact ⟨s, rfl⟩
  | cons p ps ih =>
    obtain ⟨s1, h1⟩ := autoCycle_isSome cfg p s hinv.1 (hps p (List.mem_cons_self _ _))
    obtain ⟨s2, h2⟩ := ih s1 (autoCycle_invariant cfg p s s1 hmax h1 hinv)
      (fun q hq => hps q (List.mem_cons_of_mem _ hq))
    exact ⟨s2, by simp only [autoCycles, h1, Option.some_bind, h2]⟩

/-- C9, amended. In AUTO mode with `DIVERSITY_MAX_CHECKS ≥ 1`, every sequence
of cycles from the start-up state whose secondary scores are above 0 reaches a
state `s`, and a further such cycle takes `s` to a state `s'`. The active path
changes in that cycle if and only if the counter arrived at 0 with SECONDARY
active before, or arrived at `DIVERSITY_MAX_CHECKS` with PRIMARY active before
(arrived: its value after the cycle is that bound and differs from its value
before); arriving at 0 leaves PRIMARY selected and arriving at
`DIVERSITY_MAX_CHECKS` leaves SECONDARY selected. -/
theorem autoCycle_switch_iff (cfg : Config) (e : EepromSettings) (now : Nat)
    (ps : List (Nat × Nat)) (p : Nat × Nat)
    (hmax : 1 ≤ cfg.DIVERSITY_MAX_CHECKS) (hmode : e.diversityMode = DIVERSITY_AUTO)
    (hps : ∀ q ∈ ps, 0 < q.2 % 2 ^ 8) (hp : 0 < p.2 % 2 ^ 8) :
    ∃ s s', autoCycles cfg ps (initial cfg e now) = some s ∧
      autoCycle cfg p s = some s' ∧
      (s'.activeReceiver ≠ s.activeReceiver ↔
        s'.diversityCheckTick ≠ s.diversityCheckTick ∧
          (s'.diversityCheckTick = 0 ∧ s.activeReceiver = RECEIVER_B ∨
            s'.diversityCheckTick = cfg.DIVERSITY_MAX_CHECKS ∧
              s.activeReceiver = RECEIVER_A)) ∧
      (s'.diversityCheckTick ≠ s.diversityCheckTick → s'.diversityCheckTick = 0 →
        s'.activeReceiver = RECEIVER_A) ∧
      (s'.diversityCheckTick ≠ s.diversityCheckTick →
        s'.diversityCheckTick = cfg.DIVERSITY_MAX_CHECKS →
        s'.activeReceiver = RECEIVER_B) := by
  have hinit : (initial cfg e now).eepromSettings.diversityMode = DIVERSITY_AUTO ∧
      ((initial cfg e now).activeReceiver = RECEIVER_A ∧
          (initial cfg e now).diversityCheckTick < cfg.DIVERSITY_MAX_CHECKS ∨
        (initial cfg e now).activeReceiver = RECEIVER_B ∧
          0 < (initial cfg e now).diversityCheckTick ∧
          (initial cfg e now).diversityCheckTick ≤ cfg.DIVERSITY_MAX_CHECKS) :=
    ⟨hmode, Or.inl ⟨rfl, Nat.lt_of_lt_of_le Nat.zero_lt_one hmax⟩⟩
  obtain ⟨s, hs⟩ := autoCycles_isSome cfg ps _ hmax hinit hps
  have hinv := autoCycles_invariant cfg ps _ s hmax hs hinit
  obtain ⟨s', hstep⟩ := autoCycle_isSome cfg p s hinv.1 hp
  refine ⟨s, s', hs, hstep, ?_⟩
  rw [autoCycle_eq] at hstep
  obtain ⟨_, hrel⟩ := switchDiversity_auto_step cfg
    { s with rssiA := p.1 % 2 ^ 8, rssiB := p.2 % 2 ^ 8 } s' hinv.1 hstep
  obtain ⟨_, hr⟩ := hinv
  simp only [RECEIVER_A, RECEIVER_B] at *
  refine ⟨⟨fun h => ?_, fun h => ?_⟩, fun h1 h2 => ?_, fun h1 h2 => ?_⟩ <;> omega

theorem autoCycle_switch_iff_witness :
    ∃ s s', autoCycles scenarioConfig [(50, 90), (50, 90), (50, 90)] scenarioState = some s ∧
      autoCycle scenarioConfig (50, 90) s = some s' ∧
      (s'.activeReceiver ≠ s.activeReceiver ↔
        s'.diversityCheckTick ≠ s.diversityCheckTick ∧
          (s'.diversityCheckTick = 0 ∧ s.activeReceiver = RECEIVER_B ∨
            s'.diversityCheckTick = scenarioConfig.DIVERSITY_MAX_CHECKS ∧
              s.activeReceiver = RECEIVER_A)) :=
  (autoCycle_switch_iff scenarioConfig (scenarioSettings DIVERSITY_AUTO) 1000
    [(50, 90), (50, 90), (50, 90)] (50, 90) (by decide) rfl (by decide) (by decide)).imp
    fun _ h => h.imp fun _ h => ⟨h.1, h.2.1, h.2.2.1⟩

/-! ## Forced modes -/

/-- C10. Forced modes: whatever the scores, the counter and the previously
active path, `switchDiversity` returns and leaves `activeReceiver ==
RECEIVER_A` in mode `DIVERSITY_FORCE_A` and `activeReceiver == RECEIVER_B` in
mode `DIVERSITY_FORCE_B`. -/
theorem switchDiversity_forced (cfg : Config) (s : State)
    (hmode : s.eepromSettings.diversityMode = DIVERSITY_FORCE_A ∨
      s.eepromSettings.diversityMode = DIVERSITY_FORCE_B) :
    ∃ s', switchDiversity cfg s = some s' ∧
      (s.eepromSettings.diversityMode = DIVERSITY_FORCE_A →
        s'.activeReceiver = RECEIVER_A) ∧
      (s.eepromSettings.diversityMode = DIVERSITY_FORCE_B →
        s'.activeReceiver = RECEIVER_B) := by
  unfold switchDiversity
  rcases hmode with hA | hB
  · rw [if_neg (by rw [hA]; decide), if_pos hA]
    exact ⟨_, rfl, fun _ => rfl, fun h => by rw [hA] at h; exact absurd h (by decide)⟩
  · rw [if_neg (by rw [hB]; decide), if_neg (by rw [hB]; decide), if_pos hB]
    exact ⟨_, rfl, fun h => by rw [hB] at h; exact absurd h (by decide), fun _ => rfl⟩

theorem switchDiversity_forced_witness :
    ∃ s', switchDiversity scenarioConfig
        { scenarioState with
          rssiA := 90, rssiB := 0, diversityCheckTick := 0
          eepromSettings := scenarioSettings DIVERSITY_FORCE_B } = some s' ∧
      s'.activeReceiver = RECEIVER_B :=
  (switchDiversity_forced scenarioConfig
    { scenarioState with
      rssiA := 90, rssiB := 0, diversityCheckTick := 0
      eepromSettings := scenarioSettings DIVERSITY_FORCE_B } (Or.inr rfl)).imp
    fun _ h => ⟨h.1, h.2.2 rfl⟩

/-! ## The computed percentage against the exact relative difference -/

/-- The arithmetic core of the comparison of the computed percentage with the exact one. -/
theorem percent_core (q b n X Y m1 m2 : Nat) (hb : b ≤ 255) (hX : 65536 ≤ X) (hY : 512 ≤ Y)
    (h1 : m1 * b ≤ n * X + b) (h2 : m2 * X ≤ 100 * (m1 * Y) + X) (h3 : q * Y ≤ m2) :
    q * b ≤ n * 100 := by
  by_contra hcon
  have hq : n * 100 + 1 ≤ q * b := by omega
  have a1 : q * Y * (b * X) ≤ m2 * (b * X) := Nat.mul_le_mul_right _ h3
  have a2 : b * (m2 * X) ≤ b * (100 * (m1 * Y) + X) := Nat.mul_le_mul_left _ h2
  have a3 : 100 * Y * (m1 * b) ≤ 100 * Y * (n * X + b) := Nat.mul_le_mul_left _ h1
  have a4 : (n * 100 + 1) * (X * Y) ≤ q * b * (X * Y) := Nat.mul_le_mul_right _ hq
  have a5 : X * Y ≤ 100 * b * Y + b * X := by nlinarith
  have a6 : 100 * b * Y ≤ 25500 * Y := by nlinarith
  have a7 : b * X ≤ 255 * X := Nat.mul_le_mul_right _ hb
  nlinarith

theorem percent_le_exact (n b : Nat) (hn : n < 2 ^ 8) (hb : 0 < b) (hb8 : b < 2 ^ 8) :
    f32Trunc (f32Mul (f32Round n b) (f32Round 100 1)) ≤ n * 100 / b := by
  rw [f32Round_hundred]
  by_cases h0 : n = 0
  · subst h0
    have hz : f32Round 0 b = (0, 0) := by simp [f32Round]
    have hz2 : f32Trunc (f32Mul (0, 0) (13107200, -17)) = 0 := by decide
    rw [hz, hz2]
    exact Nat.zero_le _
  · obtain ⟨k1, he1, hk1, hm1⟩ := f32Round_bound n b 8 0 (by omega) hn (by omega) (by omega)
    have hr : f32Round n b = ((f32Round n b).1, -(k1 : Int)) := by
      rw [← he1]
    have hq : n * 2 ^ k1 / b ≤ 255 * 2 ^ k1 := by
      apply Nat.div_le_of_le_mul
      calc n * 2 ^ k1 ≤ 255 * 2 ^ k1 := Nat.mul_le_mul_right _ (by omega)
        _ ≤ b * (255 * 2 ^ k1) := Nat.le_mul_of_pos_left _ hb
    have hX : 2 ^ 16 ≤ 2 ^ k1 := Nat.pow_le_pow_right (by decide) (by omega)
    have h1 : (f32Round n b).1 * b ≤ n * 2 ^ k1 + b := by
      have := Nat.div_mul_le_self (n * 2 ^ k1) b
      calc (f32Round n b).1 * b ≤ (n * 2 ^ k1 / b + 1) * b := Nat.mul_le_mul_right _ hm1
        _ = n * 2 ^ k1 / b * b + b := by ring
        _ ≤ n * 2 ^ k1 + b := by omega
    rw [hr, show ((13107200 : Nat), (-17 : Int)) = (13107200, -((17 : Nat) : Int)) from rfl,
      f32Mul_neg_exponents]
    generalize (f32Round n b).1 = m1 at hm1 h1
    by_cases hP : m1 * 13107200 = 0
    · rw [hP]
      simp [f32Round, f32Trunc, scaleBy]
    · have hPlt : m1 * 13107200 < 2 ^ (k1 + 32) := by
        rw [pow_add]
        have : m1 ≤ 255 * 2 ^ k1 + 1 := by omega
        nlinarith
      obtain ⟨k2, he2, hk2, hm2⟩ := f32Round_bound (m1 * 13107200) (2 ^ (k1 + 17))
        (k1 + 32) (k1 + 17) (by omega) hPlt (le_refl _) (by omega)
      have hr2 : f32Round (m1 * 13107200) (2 ^ (k1 + 17))
          = ((f32Round (m1 * 13107200) (2 ^ (k1 + 17))).1, -(k2 : Int)) := by
        rw [← he2]
      rw [hr2, f32Trunc_neg_exponent]
      generalize (f32Round (m1 * 13107200) (2 ^ (k1 + 17))).1 = m2 at hm2
      have hY : 2 ^ 9 ≤ 2 ^ k2 := Nat.pow_le_pow_right (by decide) (by omega)
      have h2 : m2 * 2 ^ k1 ≤ 100 * (m1 * 2 ^ k2) + 2 ^ k1 := by
        have hd := Nat.div_mul_le_self (m1 * 13107200 * 2 ^ k2) (2 ^ (k1 + 17))
        have hm : m2 * 2 ^ (k1 + 17)
            ≤ (m1 * 13107200 * 2 ^ k2 / 2 ^ (k1 + 17) + 1) * 2 ^ (k1 + 17) :=
          Nat.mul_le_mul_right _ hm2
        rw [Nat.add_mul, one_mul] at hm
        have hp : 2 ^ (k1 + 17) = 2 ^ k1 * 131072 := by rw [pow_add]; norm_num
        rw [hp] at hm hd
        have e1 : m2 * (2 ^ k1 * 131072) = 131072 * (m2 * 2 ^ k1) := by ring
        have e2 : m1 * 13107200 * 2 ^ k2 = 13107200 * (m1 * 2 ^ k2) := by ring
        rw [e1] at hm
        rw [e2] at hd hm
        omega
      rw [Nat.le_div_iff_mul_le hb]
      exact percent_core _ b n (2 ^ k1) (2 ^ k2) m1 m2 (by omega) hX hY h1 h2
        (Nat.div_mul_le_self _ _)

/-- The percentage that `switchDiversity` compares never exceeds the exact
relative difference. -/
theorem rssiDiff_le_exact (rssiA rssiB diff : Nat) (hA : rssiA < 2 ^ 8) (hB : rssiB < 2 ^ 8)
    (h : rssiDiff rssiA rssiB = some diff) :
    0 < rssiB ∧ diff * rssiB ≤ Int.natAbs ((rssiA : Int) - rssiB) * 100 := by
  unfold rssiDiff at h
  by_cases h0 : rssiB = 0
  · rw [if_pos h0] at h
    cases h
  · have hpos : 0 < rssiB := Nat.pos_of_ne_zero h0
    rw [if_neg h0] at h
    simp only at h
    have hle := percent_le_exact (Int.natAbs ((rssiA : Int) - rssiB)) rssiB (by omega) hpos hB
    rw [Nat.le_div_iff_mul_le hpos] at hle
    split_ifs at h with hlt
    simp only [Option.some.injEq] at h
    subst h
    refine ⟨hpos, le_trans (Nat.mul_le_mul_right _ (Nat.mod_le _ _)) hle⟩

/-- Exact description of one AUTO-mode call of `switchDiversity` with a defined
result: the percentage is computed; below the cut-over nothing changes; from
the cut-over on the counter moves as the scores direct and its position
selects the path. -/
theorem switchDiversity_auto_exact (cfg : Config) (s s' : State)
    (hmode : s.eepromSettings.diversityMode = DIVERSITY_AUTO)
    (h : switchDiversity cfg s = some s') :
    s'.eepromSettings = s.eepromSettings ∧
    ∃ diff, rssiDiff s.rssiA s.rssiB = some diff ∧
      ((¬ cfg.DIVERSITY_CUTOVER ≤ diff ∧ s'.diversityCheckTick = s.diversityCheckTick ∧
          s'.activeReceiver = s.activeReceiver) ∨
        (cfg.DIVERSITY_CUTOVER ≤ diff ∧
          (s.rssiB < s.rssiA ∧ 0 < s.diversityCheckTick →
            s'.diversityCheckTick = s.diversityCheckTick - 1) ∧
          (s.rssiA < s.rssiB ∧ s.diversityCheckTick < cfg.DIVERSITY_MAX_CHECKS →
            s'.diversityCheckTick = (s.diversityCheckTick + 1) % 2 ^ 8) ∧
          (¬ (s.rssiB < s.rssiA ∧ 0 < s.diversityCheckTick) ∧
              ¬ (s.rssiA < s.rssiB ∧ s.diversityCheckTick < cfg.DIVERSITY_MAX_CHECKS) →
            s'.diversityCheckTick = s.diversityCheckTick) ∧
          (s'.diversityCheckTick = 0 ∧ s'.activeReceiver = RECEIVER_A ∨
            s'.diversityCheckTick ≠ 0 ∧ cfg.DIVERSITY_MAX_CHECKS ≤ s'.diversityCheckTick ∧
              s'.activeReceiver = RECEIVER_B ∨
            s'.diversityCheckTick ≠ 0 ∧ s'.diversityCheckTick < cfg.DIVERSITY_MAX_CHECKS ∧
              s'.activeReceiver = s.activeReceiver))) := by
  unfold switchDiversity at h
  rw [if_pos hmode] at h
  cases hd : rssiDiff s.rssiA s.rssiB with
  | none =>
    rw [hd] at h
    cases h
  | some diff =>
    rw [hd] at h
    refine ⟨?_, diff, rfl, ?_⟩
    · by_cases hcut : cfg.DIVERSITY_CUTOVER ≤ diff
      · simp only [if_pos hcut, Option.some.injEq] at h
        subst h
        rfl
      · simp only [if_neg hcut, Option.some.injEq] at h
        subst h
        rfl
    · by_cases hcut : cfg.DIVERSITY_CUTOVER ≤ diff
      · simp only [if_pos hcut, Option.some.injEq] at h
        subst h
        refine Or.inr ⟨hcut, ?_⟩
        simp only [setActiveReceiver]
        split_ifs <;> omega
      · simp only [if_neg hcut, Option.some.injEq] at h
        subst h
        exact Or.inl ⟨hcut, rfl, rfl⟩

/-! ## Adjusting the counter -/

/-- C11. Evaluation at an input where the claim fails: with
`DIVERSITY_CUTOVER = 20`, after two cycles that bring the counter to 2, a cycle
with primary score 100 and secondary score 28 has the exact relative difference
257 % (at least the cut-over, with the primary higher and the counter above
0), yet `rssiDiff` holds 257 mod 256 = 1 and the counter stays at 2. -/
theorem autoCycle_percentage_wraps_at_8_bits :
    relDiffAtLeast scenarioConfig.DIVERSITY_CUTOVER 100 28 ∧
      rssiDiff 100 28 = some 1 ∧
      ∃ s s', autoCycles scenarioConfig [(50, 90), (50, 90)] scenarioState = some s ∧
        s.eepromSettings.diversityMode = DIVERSITY_AUTO ∧ s.diversityCheckTick = 2 ∧
        autoCycle scenarioConfig (100, 28) s = some s' ∧ s'.diversityCheckTick = 2 :=
  ⟨by decide, by decide, _, _, rfl, by decide, by decide, rfl, by decide⟩

/-! ## Sustained advantage of the secondary path -/

/-- One cycle in which the secondary path scores higher and the computed
percentage reaches the cut-over: the counter moves one step up, up to its
bound, and SECONDARY is active from the bound on. -/
theorem autoCycle_favouring_secondary (cfg : Config) (q : Nat × Nat) (s : State)
    (hmode : s.eepromSettings.diversityMode = DIVERSITY_AUTO)
    (h0 : 0 < cfg.DIVERSITY_MAX_CHECKS) (hM : cfg.DIVERSITY_MAX_CHECKS ≤ 255)
    (hq : q.1 % 2 ^ 8 < q.2 % 2 ^ 8)
    (hcut : computedDiffAtLeast cfg.DIVERSITY_CUTOVER (q.1 % 2 ^ 8) (q.2 % 2 ^ 8))
    (hs : s.activeReceiver = RECEIVER_A ∧ s.diversityCheckTick < cfg.DIVERSITY_MAX_CHECKS ∨
      s.activeReceiver = RECEIVER_B ∧ s.diversityCheckTick = cfg.DIVERSITY_MAX_CHECKS) :
    ∃ s', autoCycle cfg q s = some s' ∧
      s'.eepromSettings.diversityMode = DIVERSITY_AUTO ∧
      s'.diversityCheckTick = min (s.diversityCheckTick + 1) cfg.DIVERSITY_MAX_CHECKS ∧
      (s'.activeReceiver = RECEIVER_A ∧
          s'.diversityCheckTick < cfg.DIVERSITY_MAX_CHECKS ∨
        s'.activeReceiver = RECEIVER_B ∧
          s'.diversityCheckTick = cfg.DIVERSITY_MAX_CHECKS) := by
  obtain ⟨s', hs'⟩ := autoCycle_isSome cfg q s hmode (by omega)
  refine ⟨s', hs', ?_⟩
  rw [autoCycle_eq] at hs'
  obtain ⟨he, diff, hd, hcases⟩ := switchDiversity_auto_exact cfg
    { s with rssiA := q.1 % 2 ^ 8, rssiB := q.2 % 2 ^ 8 } s' hmode hs'
  obtain ⟨d, hd', hcd⟩ := hcut
  rw [hd] at hd'
  cases hd'
  refine ⟨by rw [he]; exact hmode, ?_⟩
  simp only [RECEIVER_A, RECEIVER_B] at *
  rcases hcases with ⟨hn, _⟩ | ⟨_, _, hinc, hsame, hpos⟩
  · exact absurd hcd hn
  · omega

theorem autoCycles_favouring_secondary (cfg : Config) (ps : List (Nat × Nat)) (s : State)
    (hmode : s.eepromSettings.diversityMode = DIVERSITY_AUTO)
    (h0 : 0 < cfg.DIVERSITY_MAX_CHECKS) (hM : cfg.DIVERSITY_MAX_CHECKS ≤ 255)
    (hps : ∀ q ∈ ps, q.1 % 2 ^ 8 < q.2 % 2 ^ 8 ∧
      computedDiffAtLeast cfg.DIVERSITY_CUTOVER (q.1 % 2 ^ 8) (q.2 % 2 ^ 8))
    (hs : s.activeReceiver = RECEIVER_A ∧ s.diversityCheckTick < cfg.DIVERSITY_MAX_CHECKS ∨
      s.activeReceiver = RECEIVER_B ∧ s.diversityCheckTick = cfg.DIVERSITY_MAX_CHECKS) :
    ∃ s', autoCycles cfg ps s = some s' ∧
      s'.diversityCheckTick = min (s.diversityCheckTick + ps.length) cfg.DIVERSITY_MAX_CHECKS ∧
      (s'.activeReceiver = RECEIVER_A ∧
          s'.diversityCheckTick < cfg.DIVERSITY_MAX_CHECKS ∨
        s'.activeReceiver = RECEIVER_B ∧
          s'.diversityCheckTick = cfg.DIVERSITY_MAX_CHECKS) := by
  induction ps generalizing s with
  | nil =>
    refine ⟨s, rfl, ?_, hs⟩
    simp only [List.length_nil, Nat.add_zero]
    omega
  | cons q ps ih =>
    obtain ⟨s1, h1, hm1, ht1, hs1⟩ := autoCycle_favouring_secondary cfg q s hmode h0 hM
      (hps q (List.mem_cons_self _ _)).1 (hps q (List.mem_cons_self _ _)).2 hs
    obtain ⟨s2, h2, ht2, hs2⟩ := ih s1 hm1 (fun r hr => hps r (List.mem_cons_of_mem _ hr)) hs1
    refine ⟨s2, by simp only [autoCycles, h1, Option.some_bind, h2], ?_, hs2⟩
    simp only [List.length_cons]
    omega

/-- C12, as stated, fails in two ways. With `DIVERSITY_CUTOVER = 53`, PRIMARY
active and the counter at 0 below `DIVERSITY_MAX_CHECKS = 4`, a cycle with
scores (47, 100) has the exact relative difference 53 %, yet the percentage
computed in single precision is 52 and the counter stays at 0. With
`DIVERSITY_MAX_CHECKS = 300`, PRIMARY active and the 8-bit counter at 255, a
cycle with scores (50, 90) takes the counter to 0, not to 256. -/
theorem autoCycle_counter_not_incremented :
    (47 < 100 ∧ relDiffAtLeast 53 47 100 ∧ rssiDiff 47 100 = some 52 ∧
      scenarioState.activeReceiver = RECEIVER_A ∧
      scenarioState.diversityCheckTick < scenarioConfig.DIVERSITY_MAX_CHECKS ∧
      (autoCycle { scenarioConfig with DIVERSITY_CUTOVER := 53 } (47, 100) scenarioState).map
        (fun s => s.diversityCheckTick) = some 0) ∧
    (50 < 90 ∧ relDiffAtLeast scenarioConfig.DIVERSITY_CUTOVER 50 90 ∧
      (255 : Nat) < 300 ∧
      (autoCycle { scenarioConfig with DIVERSITY_MAX_CHECKS := 300 } (50, 90)
        { scenarioState with diversityCheckTick := 255 }).map
        (fun s => (s.diversityCheckTick, s.activeReceiver)) = some (0, RECEIVER_A)) := by
  decide

/-- C12, amended. In AUTO mode with `DIVERSITY_MAX_CHECKS ≤ 255`, PRIMARY
active and the counter at `c < DIVERSITY_MAX_CHECKS`: if on `n` consecutive
cycles the secondary score exceeds the primary and the percentage that
`switchDiversity` computes (in single precision, truncated) is at least
`DIVERSITY_CUTOVER`, then the first `k ≤ n` cycles have a defined result, in
which the counter is `min (c + k) DIVERSITY_MAX_CHECKS`, PRIMARY is active
while `c + k < DIVERSITY_MAX_CHECKS` and SECONDARY is active from the cycle on
in which the counter reaches `DIVERSITY_MAX_CHECKS`. -/
theorem autoCycles_sustained_secondary (cfg : Config) (ps : List (Nat × Nat)) (s : State)
    (k : Nat) (hmode : s.eepromSettings.diversityMode = DIVERSITY_AUTO)
    (hM : cfg.DIVERSITY_MAX_CHECKS ≤ 255)
    (hA : s.activeReceiver = RECEIVER_A)
    (hc : s.diversityCheckTick < cfg.DIVERSITY_MAX_CHECKS)
    (hps : ∀ q ∈ ps, q.1 % 2 ^ 8 < q.2 % 2 ^ 8 ∧
      computedDiffAtLeast cfg.DIVERSITY_CUTOVER (q.1 % 2 ^ 8) (q.2 % 2 ^ 8))
    (hk : k ≤ ps.length) :
    ∃ s', autoCycles cfg (ps.take k) s = some s' ∧
      s'.diversityCheckTick = min (s.diversityCheckTick + k) cfg.DIVERSITY_MAX_CHECKS ∧
      (s.diversityCheckTick + k < cfg.DIVERSITY_MAX_CHECKS →
        s'.activeReceiver = RECEIVER_A) ∧
      (cfg.DIVERSITY_MAX_CHECKS ≤ s.diversityCheckTick + k →
        s'.activeReceiver = RECEIVER_B) := by
  obtain ⟨s', hrun, ht, hs'⟩ := autoCycles_favouring_secondary cfg (ps.take k) s hmode
    (by omega) hM (fun q hq => hps q (List.mem_of_mem_take hq)) (Or.inl ⟨hA, hc⟩)
  rw [List.length_take, Nat.min_eq_left hk] at ht
  refine ⟨s', hrun, ht, ?_, ?_⟩
  · intro hlt
    simp only [RECEIVER_A, RECEIVER_B] at *
    omega
  · intro hge
    simp only [RECEIVER_A, RECEIVER_B] at *
    omega

theorem autoCycles_sustained_secondary_witness :
    ∃ s', autoCycles scenarioConfig ([(50, 90), (50, 90), (50, 90)].take 2)
        { scenarioState with diversityCheckTick := 2 } = some s' ∧
      s'.diversityCheckTick = 4 ∧ s'.activeReceiver = RECEIVER_B :=
  (autoCycles_sustained_secondary scenarioConfig [(50, 90), (50, 90), (50, 90)]
    { scenarioState with diversityCheckTick := 2 } 2 rfl (by decide) rfl (by decide)
    (by
      intro q hq
      simp only [List.mem_cons, List.mem_singleton, List.not_mem_nil, or_false, or_self] at hq
      subst hq
      exact ⟨by decide, 44, by decide, by decide⟩)
    (by decide)).imp
    fun _ h => ⟨h.1, h.2.1, h.2.2.2 (by decide)⟩

/-! ## Insignificant differences -/

/-- In AUTO mode, a cycle whose scores have an exact relative difference below
the cut-over changes neither the counter nor the active path. -/
theorem autoCycle_below_cutover (cfg : Config) (q : Nat × Nat) (s : State)
    (hmode : s.eepromSettings.diversityMode = DIVERSITY_AUTO)
    (hq : 0 < q.2 % 2 ^ 8)
    (hrel : ¬ relDiffAtLeast cfg.DIVERSITY_CUTOVER (q.1 % 2 ^ 8) (q.2 % 2 ^ 8)) :
    ∃ s', autoCycle cfg q s = some s' ∧
      s'.eepromSettings = s.eepromSettings ∧
      s'.diversityCheckTick = s.diversityCheckTick ∧
      s'.activeReceiver = s.activeReceiver := by
  obtain ⟨s', hs'⟩ := autoCycle_isSome cfg q s hmode hq
  refine ⟨s', hs', ?_⟩
  rw [autoCycle_eq] at hs'
  obtain ⟨he, diff, hd, hcases⟩ := switchDiversity_auto_exact cfg
    { s with rssiA := q.1 % 2 ^ 8, rssiB := q.2 % 2 ^ 8 } s' hmode hs'
  obtain ⟨_, hle⟩ := rssiDiff_le_exact (q.1 % 2 ^ 8) (q.2 % 2 ^ 8) diff
    (Nat.mod_lt _ (by decide)) (Nat.mod_lt _ (by decide)) hd
  have hlt : diff < cfg.DIVERSITY_CUTOVER := by
    unfold relDiffAtLeast at hrel
    by_contra hcon
    have : cfg.DIVERSITY_CUTOVER * (q.2 % 2 ^ 8) ≤ diff * (q.2 % 2 ^ 8) :=
      Nat.mul_le_mul_right _ (by omega)
    omega
  rcases hcases with ⟨_, ht, ha⟩ | ⟨hcut, _⟩
  · exact ⟨he, ht, ha⟩
  · omega

/-- C13. In AUTO mode, from every state, any number of cycles in a row whose
scores (secondary above 0) have a relative difference `|p - s| / s * 100`
below `DIVERSITY_CUTOVER` has a defined result and leaves both the counter and
the active path unchanged. -/
theorem autoCycles_below_cutover (cfg : Config) (ps : List (Nat × Nat)) (s : State)
    (hmode : s.eepromSettings.diversityMode = DIVERSITY_AUTO)
    (hps : ∀ q ∈ ps, 0 < q.2 % 2 ^ 8 ∧
      ¬ relDiffAtLeast cfg.DIVERSITY_CUTOVER (q.1 % 2 ^ 8) (q.2 % 2 ^ 8)) :
    ∃ s', autoCycles cfg ps s = some s' ∧
      s'.diversityCheckTick = s.diversityCheckTick ∧
      s'.activeReceiver = s.activeReceiver := by
  induction ps generalizing s with
  | nil => exact ⟨s, rfl, rfl, rfl⟩
  | cons q ps ih =>
    obtain ⟨s1, h1, he, ht, ha⟩ := autoCycle_below_cutover cfg q s hmode
      (hps q (List.mem_cons_self _ _)).1 (hps q (List.mem_cons_self _ _)).2
    obtain ⟨s2, h2, ht2, ha2⟩ := ih s1 (by rw [he]; exact hmode)
      (fun r hr => hps r (List.mem_cons_of_mem _ hr))
    exact ⟨s2, by simp only [autoCycles, h1, Option.some_bind, h2], by omega, by omega⟩

theorem autoCycles_below_cutover_witness :
    ∃ s', autoCycles scenarioConfig [(70, 65), (70, 65), (70, 65)] scenarioState = some s' ∧
      s'.diversityCheckTick = 0 ∧ s'.activeReceiver = RECEIVER_A :=
  autoCycles_below_cutover scenarioConfig [(70, 65), (70, 65), (70, 65)] scenarioState rfl
    (by decide)

/-! ## History buffers -/

/-- Appending the values `vs` one after the other to a full buffer leaves the
last entries of the buffer followed by `vs`. -/
theorem append_foldl (vs last : List Nat) (h1 : 1 ≤ last.length) :
    vs.foldl (fun l v => l.tail ++ [v]) last = (last ++ vs).drop vs.length := by
  induction vs generalizing last with
  | nil => simp
  | cons v vs ih =>
    rw [List.foldl_cons, ih _ (by simp)]
    cases last with
    | nil => simp at h1
    | cons x xs => simp

/-- C14, as stated, fails for a capacity above 256: with
`RECEIVER_LAST_DATA_SIZE = 257` the condition `i < 256` of the shift loop holds
for every value of its `uint8_t` counter. From the start-up state, with
readings 150 and 290, the reads and the scores are defined, but once the log
timer has ticked the loop never ends, whatever the number of rounds allowed,
and `updateRssi` yields no history. -/
theorem updateRssi_history_loop_never_ends :
    wideHistoryConfig.RECEIVER_LAST_DATA_SIZE = 257 ∧
      (initial wideHistoryConfig (scenarioSettings DIVERSITY_AUTO) 1000).rssiALast.length
        = 257 ∧
      (readRssi 150 290 (waitForStableRssi wideHistoryConfig
        (initial wideHistoryConfig (scenarioSettings DIVERSITY_AUTO) 1000))).isSome ∧
      (∀ fuel, shiftLoop 257 fuel 0
        (initial wideHistoryConfig (scenarioSettings DIVERSITY_AUTO) 1000).rssiALast = none) ∧
      logRssi wideHistoryConfig true
        (initial wideHistoryConfig (scenarioSettings DIVERSITY_AUTO) 1000) = none ∧
      updateRssiBody wideHistoryConfig 150 290 true
        (initial wideHistoryConfig (scenarioSettings DIVERSITY_AUTO) 1000) = none := by
  have hlog : ∀ st : State, logRssi wideHistoryConfig true st = none := by
    intro st
    unfold logRssi
    rw [if_pos rfl, shiftHistory_never_ends _ _ _ (by decide)]
  have hbody : ∀ s0 : State,
      (readRssi 150 290 s0).bind (logRssi wideHistoryConfig true) = none := by
    intro s0
    cases readRssi 150 290 s0 with
    | none => rfl
    | some st =>
      rw [Option.some_bind]
      exact hlog st
  refine ⟨rfl, List.length_replicate 257 0, by decide,
    fun fuel => shiftLoop_never_ends 257 (by decide) fuel 0 _ (by decide), hlog _, ?_⟩
  unfold updateRssiBody sampleRssiBody
  exact hbody _

/-- C14, amended. History FIFO, for a capacity `K = RECEIVER_LAST_DATA_SIZE`
from 1 to 256 and full buffers. When the log timer has ticked, the history
update of `updateRssi` has a defined result and turns each history `h` into
`h[1..K-1]` followed by the score; when it has not ticked the state is
unchanged. Whenever the reads and the scores are defined, the statements of
`updateRssi` reach the end of the function with each history shifted and
ending in the new score after a tick, and with both histories unchanged
without one. Appending `n ≥ K` values `v1..vn` in this way leaves exactly the
last `K` of them, in insertion order. -/
theorem updateRssi_history_fifo (cfg : Config) (s : State) (readA readB : Nat)
    (hK1 : 1 ≤ cfg.RECEIVER_LAST_DATA_SIZE) (hK : cfg.RECEIVER_LAST_DATA_SIZE ≤ 256)
    (hA : s.rssiALast.length = cfg.RECEIVER_LAST_DATA_SIZE)
    (hB : s.rssiBLast.length = cfg.RECEIVER_LAST_DATA_SIZE) :
    (∃ st, logRssi cfg true s = some st ∧
      st.rssiALast = s.rssiALast.tail ++ [s.rssiA] ∧
      st.rssiBLast = s.rssiBLast.tail ++ [s.rssiB]) ∧
    logRssi cfg false s = some s ∧
    (∀ st0, readRssi readA readB (waitForStableRssi cfg s) = some st0 →
      (∃ st, updateRssiBody cfg readA readB true s = some st ∧
        st.rssiA = st0.rssiA ∧ st.rssiB = st0.rssiB ∧
        st.rssiALast = s.rssiALast.tail ++ [st.rssiA] ∧
        st.rssiBLast = s.rssiBLast.tail ++ [st.rssiB]) ∧
      (∃ st, updateRssiBody cfg readA readB false s = some st ∧
        st.rssiALast = s.rssiALast ∧ st.rssiBLast = s.rssiBLast)) ∧
    (∀ h vs : List Nat, h.length = cfg.RECEIVER_LAST_DATA_SIZE →
      cfg.RECEIVER_LAST_DATA_SIZE ≤ vs.length →
      vs.foldl (fun l v => l.tail ++ [v]) h
        = vs.drop (vs.length - cfg.RECEIVER_LAST_DATA_SIZE)) := by
  have hlog : ∀ t : State, t.rssiALast.length = cfg.RECEIVER_LAST_DATA_SIZE →
      t.rssiBLast.length = cfg.RECEIVER_LAST_DATA_SIZE →
      logRssi cfg true t = some { t with
        rssiALast := t.rssiALast.tail ++ [t.rssiA]
        rssiBLast := t.rssiBLast.tail ++ [t.rssiB] } := by
    intro t htA htB
    unfold logRssi
    rw [if_pos rfl, shiftHistory_eq _ _ _ hK1 hK htA, shiftHistory_eq _ _ _ hK1 hK htB]
  refine ⟨⟨_, hlog s hA hB, rfl, rfl⟩, rfl, ?_, ?_⟩
  · intro st0 h0
    have hr := readRssi_some readA readB _ st0 h0
    have hw := waitForStableRssi_histories cfg s
    have hlA : st0.rssiALast = s.rssiALast := by rw [hr.2.2.2.2.1, hw.1]
    have hlB : st0.rssiBLast = s.rssiBLast := by rw [hr.2.2.2.2.2, hw.2]
    constructor
    · refine ⟨{ st0 with
          rssiALast := st0.rssiALast.tail ++ [st0.rssiA]
          rssiBLast := st0.rssiBLast.tail ++ [st0.rssiB] }, ?_, rfl, rfl, ?_, ?_⟩
      · unfold updateRssiBody sampleRssiBody
        rw [h0, Option.some_bind]
        exact hlog st0 (by rw [hlA]; exact hA) (by rw [hlB]; exact hB)
      · show st0.rssiALast.tail ++ [st0.rssiA] = s.rssiALast.tail ++ [st0.rssiA]
        rw [hlA]
      · show st0.rssiBLast.tail ++ [st0.rssiB] = s.rssiBLast.tail ++ [st0.rssiB]
        rw [hlB]
    · refine ⟨st0, ?_, hlA, hlB⟩
      unfold updateRssiBody sampleRssiBody
      rw [h0, Option.some_bind]
      rfl
  · intro h vs hlen hvs
    rw [append_foldl vs h (by omega), List.drop_append_eq_append_drop, hlen,
      List.drop_eq_nil_of_le (by omega), List.nil_append]

theorem updateRssi_history_fifo_witness :
    (∃ st, logRssi scenarioConfig true { scenarioState with rssiA := 25, rssiB := 95 }
        = some st ∧
      st.rssiALast = [0, 0, 0, 25] ∧ st.rssiBLast = [0, 0, 0, 95]) ∧
    [1, 2, 3, 4, 5].foldl (fun l v => l.tail ++ [v]) [0, 0, 0, 0] = [2, 3, 4, 5] ∧
    (updateRssiBody scenarioConfig 150 290 true scenarioState).map
      (fun st => (st.rssiALast, st.rssiBLast)) = some ([0, 0, 0, 25], [0, 0, 0, 25]) :=
  ⟨(updateRssi_history_fifo scenarioConfig
      { scenarioState with rssiA := 25, rssiB := 95 } 150 290
      (by decide) (by decide) (by decide) (by decide)).1,
    (updateRssi_history_fifo scenarioConfig scenarioState 150 290
      (by decide) (by decide) (by decide) (by decide)).2.2.2 [0, 0, 0, 0] [1, 2, 3, 4, 5]
        (by decide) (by decide),
    by decide⟩

/-! ## Hysteresis -/

theorem autoCycles_append (cfg : Config) (ps qs : List (Nat × Nat)) (s : State) :
    autoCycles cfg (ps ++ qs) s = (autoCycles cfg ps s).bind (autoCycles cfg qs) := by
  induction ps generalizing s with
  | nil => rfl
  | cons p ps ih =>
    simp only [List.cons_append, autoCycles]
    cases autoCycle cfg p s with
    | none => rfl
    | some s1 => exact ih s1

/-- One AUTO-mode cycle moves the counter by at most one step, and only in a
cycle that favours the path it moves towards; the active path changes only to
the path whose bound the counter is at. -/
theorem autoCycle_counter_moves (cfg : Config) (q : Nat × Nat) (s s' : State)
    (hmode : s.eepromSettings.diversityMode = DIVERSITY_AUTO)
    (h : autoCycle cfg q s = some s') :
    s'.eepromSettings.diversityMode = DIVERSITY_AUTO ∧
      (s'.diversityCheckTick = s.diversityCheckTick ∨
        s'.diversityCheckTick = s.diversityCheckTick - 1 ∧ 0 < s.diversityCheckTick ∧
          favours cfg RECEIVER_A q = true ∨
        s'.diversityCheckTick = (s.diversityCheckTick + 1) % 2 ^ 8 ∧
          s.diversityCheckTick < cfg.DIVERSITY_MAX_CHECKS ∧
          favours cfg RECEIVER_B q = true) ∧
      (s'.activeReceiver = s.activeReceiver ∨
        s'.diversityCheckTick = 0 ∧ s'.activeReceiver = RECEIVER_A ∨
        cfg.DIVERSITY_MAX_CHECKS ≤ s'.diversityCheckTick ∧
          s'.activeReceiver = RECEIVER_B) := by
  rw [autoCycle_eq] at h
  obtain ⟨he, diff, hd, hcases⟩ := switchDiversity_auto_exact cfg
    { s with rssiA := q.1 % 2 ^ 8, rssiB := q.2 % 2 ^ 8 } s' hmode h
  obtain ⟨_, hle⟩ := rssiDiff_le_exact (q.1 % 2 ^ 8) (q.2 % 2 ^ 8) diff
    (Nat.mod_lt _ (by decide)) (Nat.mod_lt _ (by decide)) hd
  refine ⟨by rw [he]; exact hmode, ?_⟩
  dsimp only at hcases
  rcases hcases with ⟨_, ht, ha⟩ | ⟨hcut, hdec, hinc, hsame, hpos⟩
  · exact ⟨Or.inl ht, Or.inl ha⟩
  · have hrel : relDiffAtLeast cfg.DIVERSITY_CUTOVER (q.1 % 2 ^ 8) (q.2 % 2 ^ 8) :=
      le_trans (Nat.mul_le_mul_right _ hcut) hle
    constructor
    · by_cases h1 : q.2 % 2 ^ 8 < q.1 % 2 ^ 8 ∧ 0 < s.diversityCheckTick
      · refine Or.inr (Or.inl ⟨hdec h1, h1.2, ?_⟩)
        simp [favours, RECEIVER_A, RECEIVER_B]
        exact ⟨h1.1, hrel⟩
      · by_cases h2 : q.1 % 2 ^ 8 < q.2 % 2 ^ 8 ∧
            s.diversityCheckTick < cfg.DIVERSITY_MAX_CHECKS
        · refine Or.inr (Or.inr ⟨hinc h2, h2.2, ?_⟩)
          simp [favours]
          exact ⟨h2.1, hrel⟩
        · exact Or.inl (hsame ⟨h1, h2⟩)
    · rcases hpos with ⟨ht, ha⟩ | ⟨_, ht, ha⟩ | ⟨_, _, ha⟩
      · exact Or.inr (Or.inl ⟨ht, ha⟩)
      · exact Or.inr (Or.inr ⟨ht, ha⟩)
      · exact Or.inl ha

/-- From a state with credit `c` covering the counter, the counter stays
covered by the credit and the cycles that favoured SECONDARY, and SECONDARY is
active only once they cover `DIVERSITY_MAX_CHECKS`. -/
theorem autoCycles_towards_secondary (cfg : Config) (seg : List (Nat × Nat)) (s s' : State)
    (c : Nat) (hmode : s.eepromSettings.diversityMode = DIVERSITY_AUTO)
    (hrun : autoCycles cfg seg s = some s')
    (h1 : s.diversityCheckTick ≤ c)
    (h2 : s.activeReceiver = RECEIVER_B → cfg.DIVERSITY_MAX_CHECKS ≤ c) :
    s'.diversityCheckTick ≤ c + (seg.filter (favours cfg RECEIVER_B)).length ∧
      (s'.activeReceiver = RECEIVER_B →
        cfg.DIVERSITY_MAX_CHECKS ≤ c + (seg.filter (favours cfg RECEIVER_B)).length) := by
  induction seg generalizing s c with
  | nil =>
    cases hrun
    exact ⟨h1, h2⟩
  | cons q seg ih =>
    simp only [autoCycles, Option.bind_eq_some] at hrun
    obtain ⟨s1, hq, hrest⟩ := hrun
    obtain ⟨hm1, htick, hact⟩ := autoCycle_counter_moves cfg q s s1 hmode hq
    by_cases hf : favours cfg RECEIVER_B q = true
    · have := ih s1 (c + 1) hm1 hrest (by omega) (by
        intro hB
        rcases hact with ha | ⟨_, ha⟩ | ⟨ht, _⟩
        · have := h2 (ha ▸ hB)
          omega
        · rw [ha] at hB
          exact absurd hB (by decide)
        · omega)
      rw [List.filter_cons_of_pos hf, List.length_cons]
      omega
    · have := ih s1 c hm1 hrest (by
        rcases htick with ht | ⟨ht, _, _⟩ | ⟨_, _, hfav⟩
        · omega
        · omega
        · exact absurd hfav hf) (by
        intro hB
        rcases hact with ha | ⟨_, ha⟩ | ⟨ht, _⟩
        · exact h2 (ha ▸ hB)
        · rw [ha] at hB
          exact absurd hB (by decide)
        · rcases htick with ht' | ⟨ht', _, _⟩ | ⟨_, _, hfav⟩
          · omega
          · omega
          · exact absurd hfav hf)
      rw [List.filter_cons_of_neg hf]
      exact this

/-- From a state whose counter is within credit `c` of `DIVERSITY_MAX_CHECKS`,
it stays within the credit and the cycles that favoured PRIMARY, and PRIMARY
is active only once they cover `DIVERSITY_MAX_CHECKS`. -/
theorem autoCycles_towards_primary (cfg : Config) (seg : List (Nat × Nat)) (s s' : State)
    (c : Nat) (hmode : s.eepromSettings.diversityMode = DIVERSITY_AUTO)
    (hM : cfg.DIVERSITY_MAX_CHECKS ≤ 255)
    (hrun : autoCycles cfg seg s = some s')
    (h1 : cfg.DIVERSITY_MAX_CHECKS ≤ s.diversityCheckTick + c)
    (h2 : s.activeReceiver = RECEIVER_A → cfg.DIVERSITY_MAX_CHECKS ≤ c) :
    cfg.DIVERSITY_MAX_CHECKS
        ≤ s'.diversityCheckTick + (c + (seg.filter (favours cfg RECEIVER_A)).length) ∧
      (s'.activeReceiver = RECEIVER_A →
        cfg.DIVERSITY_MAX_CHECKS ≤ c + (seg.filter (favours cfg RECEIVER_A)).length) := by
  induction seg generalizing s c with
  | nil =>
    cases hrun
    exact ⟨h1, h2⟩
  | cons q seg ih =>
    simp only [autoCycles, Option.bind_eq_some] at hrun
    obtain ⟨s1, hq, hrest⟩ := hrun
    obtain ⟨hm1, htick, hact⟩ := autoCycle_counter_moves cfg q s s1 hmode hq
    by_cases hf : favours cfg RECEIVER_A q = true
    · have := ih s1 (c + 1) hm1 hrest (by omega) (by
        intro hA
        rcases hact with ha | ⟨ht, _⟩ | ⟨_, ha⟩
        · have := h2 (ha ▸ hA)
          omega
        · omega
        · rw [ha] at hA
          exact absurd hA (by decide))
      rw [List.filter_cons_of_pos hf, List.length_cons]
      omega
    · have := ih s1 c hm1 hrest (by
        rcases htick with ht | ⟨_, _, hfav⟩ | ⟨ht, _, _⟩
        · omega
        · exact absurd hfav hf
        · omega) (by
        intro hA
        rcases hact with ha | ⟨ht, _⟩ | ⟨_, ha⟩
        · exact h2 (ha ▸ hA)
        · rcases htick with ht' | ⟨_, _, hfav⟩ | ⟨ht', _, _⟩
          · omega
          · exact absurd hfav hf
          · omega
        · rw [ha] at hA
          exact absurd hA (by decide))
      rw [List.filter_cons_of_neg hf]
      exact this

/-- C15. Hysteresis: with `DIVERSITY_MAX_CHECKS ≥ 1`, take a run of AUTO-mode
cycles from the start-up state with secondary scores above 0, cut after a
cycle that changed the active path (or at the start) into the cycles `pre`
before and the cycles `seg` after. Both parts have a defined result, and if
the active path after `seg` differs from the one after `pre`, then at least
`DIVERSITY_MAX_CHECKS` cycles of `seg` favoured the path then active: it
scored higher with a relative difference of at least `DIVERSITY_CUTOVER`. So
the next change of the path comes after at least `DIVERSITY_MAX_CHECKS` such
cycles, and two consecutive changes are at least that many cycles apart. -/
theorem path_change_needs_sustained_advantage (cfg : Config) (e : EepromSettings)
    (now : Nat) (pre seg : List (Nat × Nat))
    (hmax : 1 ≤ cfg.DIVERSITY_MAX_CHECKS) (hmode : e.diversityMode = DIVERSITY_AUTO)
    (hps : ∀ q ∈ pre ++ seg, 0 < q.2 % 2 ^ 8)
    (hhome : pre = [] ∨ ∃ pre' q s0 s1, pre = pre' ++ [q] ∧
      autoCycles cfg pre' (initial cfg e now) = some s0 ∧
      autoCycle cfg q s0 = some s1 ∧ s1.activeReceiver ≠ s0.activeReceiver) :
    ∃ s s', autoCycles cfg pre (initial cfg e now) = some s ∧
      autoCycles cfg seg s = some s' ∧
      (s'.activeReceiver ≠ s.activeReceiver →
        cfg.DIVERSITY_MAX_CHECKS ≤ (seg.filter (favours cfg s'.activeReceiver)).length ∧
        cfg.DIVERSITY_MAX_CHECKS ≤ seg.length) := by
  have hinit : (initial cfg e now).eepromSettings.diversityMode = DIVERSITY_AUTO ∧
      ((initial cfg e now).activeReceiver = RECEIVER_A ∧
          (initial cfg e now).diversityCheckTick < cfg.DIVERSITY_MAX_CHECKS ∨
        (initial cfg e now).activeReceiver = RECEIVER_B ∧
          0 < (initial cfg e now).diversityCheckTick ∧
          (initial cfg e now).diversityCheckTick ≤ cfg.DIVERSITY_MAX_CHECKS) :=
    ⟨hmode, Or.inl ⟨rfl, Nat.lt_of_lt_of_le Nat.zero_lt_one hmax⟩⟩
  obtain ⟨s, hs⟩ := autoCycles_isSome cfg pre _ hmax hinit
    (fun q hq => hps q (List.mem_append_left _ hq))
  have hinv := autoCycles_invariant cfg pre _ s hmax hs hinit
  obtain ⟨s', hs'⟩ := autoCycles_isSome cfg seg s hmax hinv
    (fun q hq => hps q (List.mem_append_right _ hq))
  have hinv' := autoCycles_invariant cfg seg s s' hmax hs' hinv
  refine ⟨s, s', hs, hs', fun hne => ?_⟩
  have hhome' : s.activeReceiver = RECEIVER_A ∧ s.diversityCheckTick = 0 ∨
      s.activeReceiver = RECEIVER_B ∧ s.diversityCheckTick = cfg.DIVERSITY_MAX_CHECKS ∧
        cfg.DIVERSITY_MAX_CHECKS ≤ 255 := by
    rcases hhome with hnil | ⟨pre', q, s0, s1, hpre, h0, h1, hch⟩
    · subst hnil
      cases hs
      exact Or.inl ⟨rfl, rfl⟩
    · have hs1 : s = s1 := by
        rw [hpre, autoCycles_append, h0] at hs
        simp only [Option.some_bind, autoCycles, h1] at hs
        exact (Option.some.inj hs).symm
      subst hs1
      have hinv0 := autoCycles_invariant cfg pre' _ s0 hmax h0 hinit
      rw [autoCycle_eq] at h1
      obtain ⟨_, hrel⟩ := switchDiversity_auto_step cfg
        { s0 with rssiA := q.1 % 2 ^ 8, rssiB := q.2 % 2 ^ 8 } s hinv0.1 h1
      obtain ⟨_, hr0⟩ := hinv0
      simp only [RECEIVER_A, RECEIVER_B] at *
      omega
  have hcount : ∀ r, (seg.filter (favours cfg r)).length ≤ seg.length :=
    fun r => List.length_filter_le _ _
  rcases hhome' with ⟨hA, ht⟩ | ⟨hB, ht, hM⟩
  · have hB' : s'.activeReceiver = RECEIVER_B := by
      obtain ⟨_, hr⟩ := hinv'
      simp only [RECEIVER_A, RECEIVER_B] at *
      omega
    have := (autoCycles_towards_secondary cfg seg s s' 0 hinv.1 hs' (by omega)
      (by rw [hA]; intro h; exact absurd h (by decide))).2 hB'
    rw [hB']
    have := hcount RECEIVER_B
    omega
  · have hA' : s'.activeReceiver = RECEIVER_A := by
      obtain ⟨_, hr⟩ := hinv'
      simp only [RECEIVER_A, RECEIVER_B] at *
      omega
    have := (autoCycles_towards_primary cfg seg s s' 0 hinv.1 hM hs' (by omega)
      (by rw [hB]; intro h; exact absurd h (by decide))).2 hA'
    rw [hA']
    have := hcount RECEIVER_A
    omega

theorem path_change_needs_sustained_advantage_witness :
    ∃ s s', autoCycles scenarioConfig [] scenarioState = some s ∧
      autoCycles scenarioConfig [(50, 90), (70, 65), (50, 90), (50, 90), (50, 90)] s
        = some s' ∧
      (s'.activeReceiver ≠ s.activeReceiver →
        scenarioConfig.DIVERSITY_MAX_CHECKS
            ≤ ([(50, 90), (70, 65), (50, 90), (50, 90), (50, 90)].filter
              (favours scenarioConfig s'.activeReceiver)).length ∧
          scenarioConfig.DIVERSITY_MAX_CHECKS
            ≤ [(50, 90), (70, 65), (50, 90), (50, 90), (50, 90)].length) :=
  path_change_needs_sustained_advantage scenarioConfig (scenarioSettings DIVERSITY_AUTO) 1000
    [] [(50, 90), (70, 65), (50, 90), (50, 90), (50, 90)] (by decide) rfl (by decide)
    (Or.inl rfl)

/-! ## Mode changes and indicators -/

/-- The call `switchDiversity` writes no setting. -/
theorem switchDiversity_eepromSettings (cfg : Config) (s s' : State)
    (h : switchDiversity cfg s = some s') : s'.eepromSettings = s.eepromSettings := by
  by_cases hmode : s.eepromSettings.diversityMode = DIVERSITY_AUTO
  · exact (switchDiversity_auto_exact cfg s s' hmode h).1
  · unfold switchDiversity at h
    rw [if_neg hmode] at h
    split_ifs at h <;> cases h <;> rfl

theorem waitForStableRssi_activeReceiver (cfg : Config) (s : State) :
    (waitForStableRssi cfg s).activeReceiver = s.activeReceiver := by
  unfold waitForStableRssi
  split_ifs <;> rfl

/-- C16. The call `setDiversityMode(mode)` is `switchDiversity` run on the
state in which `mode` is the stored diversity mode, and the mode is still
stored when it returns; with `DIVERSITY_FORCE_A` it returns with `RECEIVER_A`
active and with `DIVERSITY_FORCE_B` with `RECEIVER_B` active, from every prior
state. -/
theorem setDiversityMode_arbitrates (cfg : Config) (s : State) :
    (∀ mode, setDiversityMode cfg mode s = switchDiversity cfg
      { s with eepromSettings := { s.eepromSettings with diversityMode := mode % 2 ^ 8 } }) ∧
    (∀ mode s', setDiversityMode cfg mode s = some s' →
      s'.eepromSettings.diversityMode = mode % 2 ^ 8) ∧
    (∃ s', setDiversityMode cfg DIVERSITY_FORCE_A s = some s' ∧
      s'.eepromSettings.diversityMode = DIVERSITY_FORCE_A ∧
      s'.activeReceiver = RECEIVER_A) ∧
    (∃ s', setDiversityMode cfg DIVERSITY_FORCE_B s = some s' ∧
      s'.eepromSettings.diversityMode = DIVERSITY_FORCE_B ∧
      s'.activeReceiver = RECEIVER_B) := by
  refine ⟨fun _ => rfl, ?_, ⟨_, rfl, rfl, rfl⟩, ⟨_, rfl, rfl, rfl⟩⟩
  intro mode s' h
  rw [switchDiversity_eepromSettings cfg _ s' h]

theorem setDiversityMode_arbitrates_witness :
    ∃ s', setDiversityMode scenarioConfig DIVERSITY_FORCE_B scenarioState = some s' ∧
      s'.eepromSettings.diversityMode = DIVERSITY_FORCE_B ∧
      s'.activeReceiver = RECEIVER_B :=
  (setDiversityMode_arbitrates scenarioConfig scenarioState).2.2.2

/-- C18. Evaluation at the inputs the claim names: in AUTO mode with secondary
score 0 the quotient `(rssiA - rssiB) / (float) rssiB` is a division by zero;
its conversion to `int` has no defined result, and so `switchDiversity` has
none, whatever the primary score. -/
theorem switchDiversity_undefined_on_zero_secondary (cfg : Config) (s : State)
    (hmode : s.eepromSettings.diversityMode = DIVERSITY_AUTO) (hB : s.rssiB = 0) :
    rssiDiff s.rssiA s.rssiB = none ∧ switchDiversity cfg s = none := by
  have hd : rssiDiff s.rssiA s.rssiB = none := by
    rw [hB]
    simp [rssiDiff]
  refine ⟨hd, ?_⟩
  unfold switchDiversity
  rw [if_pos hmode, hd]

theorem switchDiversity_undefined_on_zero_secondary_witness :
    switchDiversity scenarioConfig { scenarioState with rssiA := 50, rssiB := 0 } = none ∧
      switchDiversity scenarioConfig scenarioState = none :=
  ⟨(switchDiversity_undefined_on_zero_secondary scenarioConfig
      { scenarioState with rssiA := 50, rssiB := 0 } rfl rfl).2,
    (switchDiversity_undefined_on_zero_secondary scenarioConfig scenarioState rfl rfl).2⟩

/-- C19. In the forced modes `switchDiversity` returns and leaves the
hysteresis counter as it found it, whatever the state and the scores. -/
theorem switchDiversity_forced_keeps_tick (cfg : Config) (s : State)
    (hmode : s.eepromSettings.diversityMode = DIVERSITY_FORCE_A ∨
      s.eepromSettings.diversityMode = DIVERSITY_FORCE_B) :
    ∃ s', switchDiversity cfg s = some s' ∧
      s'.diversityCheckTick = s.diversityCheckTick := by
  unfold switchDiversity
  rcases hmode with hA | hB
  · rw [if_neg (by rw [hA]; decide), if_pos hA]
    exact ⟨_, rfl, rfl⟩
  · rw [if_neg (by rw [hB]; decide), if_neg (by rw [hB]; decide), if_pos hB]
    exact ⟨_, rfl, rfl⟩

theorem switchDiversity_forced_keeps_tick_witness :
    ∃ s', switchDiversity scenarioConfig
        { scenarioState with
          rssiA := 10, rssiB := 90, diversityCheckTick := 3
          eepromSettings := scenarioSettings DIVERSITY_FORCE_A } = some s' ∧
      s'.diversityCheckTick = 3 :=
  switchDiversity_forced_keeps_tick scenarioConfig
    { scenarioState with
      rssiA := 10, rssiB := 90, diversityCheckTick := 3
      eepromSettings := scenarioSettings DIVERSITY_FORCE_A } (Or.inl rfl)

/-- C20. Counter / active-path consistency: with `DIVERSITY_MAX_CHECKS ≥ 1`,
every sequence of AUTO-mode cycles from the start-up state whose secondary
scores are above 0 reaches a state, and in it `activeReceiver == RECEIVER_A`
implies `counter < DIVERSITY_MAX_CHECKS` and `activeReceiver == RECEIVER_B`
implies `counter > 0`. -/
theorem autoCycles_counter_path_consistent (cfg : Config) (e : EepromSettings) (now : Nat)
    (ps : List (Nat × Nat))
    (hmax : 1 ≤ cfg.DIVERSITY_MAX_CHECKS) (hmode : e.diversityMode = DIVERSITY_AUTO)
    (hps : ∀ q ∈ ps, 0 < q.2 % 2 ^ 8) :
    ∃ s, autoCycles cfg ps (initial cfg e now) = some s ∧
      (s.activeReceiver = RECEIVER_A → s.diversityCheckTick < cfg.DIVERSITY_MAX_CHECKS) ∧
      (s.activeReceiver = RECEIVER_B → 0 < s.diversityCheckTick) := by
  have hinit : (initial cfg e now).eepromSettings.diversityMode = DIVERSITY_AUTO ∧
      ((initial cfg e now).activeReceiver = RECEIVER_A ∧
          (initial cfg e now).diversityCheckTick < cfg.DIVERSITY_MAX_CHECKS ∨
        (initial cfg e now).activeReceiver = RECEIVER_B ∧
          0 < (initial cfg e now).diversityCheckTick ∧
          (initial cfg e now).diversityCheckTick ≤ cfg.DIVERSITY_MAX_CHECKS) :=
    ⟨hmode, Or.inl ⟨rfl, Nat.lt_of_lt_of_le Nat.zero_lt_one hmax⟩⟩
  obtain ⟨s, hs⟩ := autoCycles_isSome cfg ps _ hmax hinit hps
  obtain ⟨_, hr⟩ := autoCycles_invariant cfg ps _ s hmax hs hinit
  refine ⟨s, hs, ?_, ?_⟩
  · intro hA
    simp only [RECEIVER_A, RECEIVER_B] at *
    omega
  · intro hB
    simp only [RECEIVER_A, RECEIVER_B] at *
    omega

theorem autoCycles_counter_path_consistent_witness :
    ∃ s, autoCycles scenarioConfig [(50, 90), (50, 90), (50, 90), (50, 90), (90, 50)]
        scenarioState = some s ∧
      (s.activeReceiver = RECEIVER_A →
        s.diversityCheckTick < scenarioConfig.DIVERSITY_MAX_CHECKS) ∧
      (s.activeReceiver = RECEIVER_B → 0 < s.diversityCheckTick) :=
  autoCycles_counter_path_consistent scenarioConfig (scenarioSettings DIVERSITY_AUTO) 1000
    [(50, 90), (50, 90), (50, 90), (50, 90), (90, 50)] (by decide) rfl (by decide)

end Receiver
